import Mathlib

/-!
Shallow embedding of `alpa/pipeline_parallel/cross_mesh_resharding.py`
(plus the pieces of its helper modules that the file uses), together with
proofs of the specification claims about it.

Python dictionaries are modelled as association lists with insert-or-update
semantics (`dictSet` / `dictGet`), machine integers as `Nat` with explicit
`% 2 ^ 60` where the code takes a modulus, fallible code as `Except`, and the
module-level mutable counter as explicit state passing.
-/

namespace Alpa

/-! ## Python dictionary model -/

/-- Model of Python dict assignment `d[k] = v`: update the value in place if
the key is present (keeping its position), otherwise append the binding. -/
def dictSet {K V : Type} [DecidableEq K] (d : List (K × V)) (k : K) (v : V) :
    List (K × V) :=
  if d.any (fun kv => kv.1 = k) then
    d.map (fun kv => if kv.1 = k then (k, v) else kv)
  else
    d ++ [(k, v)]

/-- Model of Python dict lookup `d[k]` (as an `Option`). -/
def dictGet {K V : Type} [DecidableEq K] (d : List (K × V)) (k : K) : Option V :=
  (d.find? (fun kv => kv.1 = k)).map (fun kv => kv.2)

/-! ## Task uuid counter (`next_resharding_task_uuid`)

The Python module keeps a global `resharding_task_counter`; we model it by
explicit state passing: the function maps the previous counter value to the
pair (new counter value, returned uuid). -/

/-- Embedding of `next_resharding_task_uuid`: the counter is incremented,
reduced modulo `2 ^ 60`, stored back and returned. -/
def next_resharding_task_uuid (counter : Nat) : Nat × Nat :=
  let c := (counter + 1) % (1 <<< 60)
  (c, c)

/-- Counter value after `n` successive calls starting from counter `c0`.
For `n ≥ 1` this is also the uuid returned by the `n`-th call. -/
def taskCounterAfter (c0 : Nat) : Nat → Nat
  | 0 => c0
  | n + 1 => (next_resharding_task_uuid (taskCounterAfter c0 n)).1

/-! ## `ReshardingTaskSpec` strategy slot (for the read-before-set contract)

Only the fields that the strategy getter and setter touch are modelled; the
remaining fields are carried as type parameters. A `ReshardingStrategy`
instance is always truthy in Python (the class defines neither `__bool__` nor
`__len__`), so `if not self._strategy` is exactly an `Option.isNone` test. -/

structure SpecState (Src Dst Slice Strat : Type) where
  src : Src
  dst : Dst
  dstTileMapCache : Option Unit
  strategySlot : Option Strat
  allgather_slice : Option Slice

/-- Embedding of `ReshardingTaskSpec.__init__`: the strategy slot starts out
unset (`self._strategy = None`). -/
def specInit {Src Dst Slice Strat : Type} (src : Src) (dst : Dst)
    (allgather_slice : Option Slice) : SpecState Src Dst Slice Strat :=
  ⟨src, dst, none, none, allgather_slice⟩

/-- Embedding of `ReshardingTaskSpec.set_resharding_strategy`. -/
def set_resharding_strategy {Src Dst Slice Strat : Type}
    (s : SpecState Src Dst Slice Strat) (strategy : Strat) :
    SpecState Src Dst Slice Strat :=
  { s with strategySlot := some strategy }

/-- Embedding of the `ReshardingTaskSpec.strategy` property: raise
`RuntimeError` when the slot is unset, otherwise return the stored strategy.
The property reads `self._strategy` only, so the state is returned unchanged
alongside the result. -/
def strategyProp {Src Dst Slice Strat : Type}
    (s : SpecState Src Dst Slice Strat) :
    Except String Strat × SpecState Src Dst Slice Strat :=
  match s.strategySlot with
  | none => (Except.error
      "Generate and set strategy in the cross-mesh communicator first.", s)
  | some st => (Except.ok st, s)

/-! ## Theorems for claims C9 and C6 -/

theorem taskCounterAfter_eq (c0 : Nat) :
    ∀ n : Nat, taskCounterAfter c0 (n + 1) = (c0 + (n + 1)) % (1 <<< 60) := by
  intro n
  induction n with
  | zero => simp [taskCounterAfter, next_resharding_task_uuid]
  | succ m ih =>
      show (next_resharding_task_uuid (taskCounterAfter c0 (m + 1))).1 = _
      rw [ih]
      simp [next_resharding_task_uuid, Nat.mod_add_mod]
      ring_nf

/-- C9: `next_resharding_task_uuid` returns `(previous counter + 1) % 2^60`
and stores that same value; every returned id is below `2^60`; consecutive
returned ids increase by one until `2^60 - 1` is returned, after which the
next call returns `0`; and any window of fewer than `2^60` consecutive calls
returns pairwise distinct ids. -/
theorem C9_uuid_counter :
    (∀ c : Nat, next_resharding_task_uuid c =
        ((c + 1) % 2 ^ 60, (c + 1) % 2 ^ 60)) ∧
    (∀ c : Nat, (next_resharding_task_uuid c).2 < 2 ^ 60) ∧
    (∀ c0 n : Nat,
        (taskCounterAfter c0 (n + 1) ≠ 2 ^ 60 - 1 →
          taskCounterAfter c0 (n + 2) = taskCounterAfter c0 (n + 1) + 1) ∧
        (taskCounterAfter c0 (n + 1) = 2 ^ 60 - 1 →
          taskCounterAfter c0 (n + 2) = 0)) ∧
    (∀ c0 i j : Nat, 1 ≤ i → i < j → j - i < 2 ^ 60 →
        taskCounterAfter c0 i ≠ taskCounterAfter c0 j) := by
  have hM : (1 <<< 60 : Nat) = 2 ^ 60 := by
    simp [Nat.shiftLeft_eq]
  refine ⟨?_, ?_, ?_, ?_⟩
  · intro c
    simp [next_resharding_task_uuid, hM]
  · intro c
    simp only [next_resharding_task_uuid, hM]
    exact Nat.mod_lt _ (by norm_num)
  · intro c0 n
    have h1 : taskCounterAfter c0 (n + 1) = (c0 + (n + 1)) % (1 <<< 60) :=
      taskCounterAfter_eq c0 n
    have h2 : taskCounterAfter c0 (n + 2) = (c0 + (n + 2)) % (1 <<< 60) :=
      taskCounterAfter_eq c0 (n + 1)
    have hlt : taskCounterAfter c0 (n + 1) < 2 ^ 60 := by
      rw [h1, hM]; exact Nat.mod_lt _ (by norm_num)
    have hstep : taskCounterAfter c0 (n + 2) =
        (taskCounterAfter c0 (n + 1) + 1) % (1 <<< 60) := by
      rw [h1, h2, Nat.mod_add_mod]
      ring_nf
    constructor
    · intro hne
      rw [hstep, hM]
      have : taskCounterAfter c0 (n + 1) + 1 < 2 ^ 60 := by omega
      rw [hM] at *
      exact Nat.mod_eq_of_lt this
    · intro heq
      rw [hstep, heq, hM]
      norm_num
  · intro c0 i j h1 hij hwin heq
    obtain ⟨i0, rfl⟩ : ∃ i0, i = i0 + 1 := ⟨i - 1, by omega⟩
    obtain ⟨j0, rfl⟩ : ∃ j0, j = j0 + 1 := ⟨j - 1, by omega⟩
    rw [taskCounterAfter_eq c0 i0, taskCounterAfter_eq c0 j0] at heq
    have hdvd : (1 <<< 60 : Nat) ∣ (c0 + (j0 + 1)) - (c0 + (i0 + 1)) :=
      (Nat.modEq_iff_dvd' (by omega)).mp heq
    rw [hM] at hdvd
    have : (c0 + (j0 + 1)) - (c0 + (i0 + 1)) = j0 - i0 := by omega
    rw [this] at hdvd
    have hpos : 0 < j0 - i0 := by omega
    have := Nat.le_of_dvd hpos hdvd
    omega

/-- Witness for C9 at a concrete window: the ids returned by the first and the
third call starting from the initial counter value `0` are distinct. -/
theorem C9_uuid_counter_witness :
    1 ≤ 1 ∧ 1 < 3 ∧ 3 - 1 < 2 ^ 60 ∧
      taskCounterAfter 0 1 ≠ taskCounterAfter 0 3 :=
  ⟨le_refl 1, by norm_num, by norm_num,
    C9_uuid_counter.2.2.2 0 1 3 (le_refl 1) (by norm_num) (by norm_num)⟩

/-- C6: reading `ReshardingTaskSpec.strategy` before `set_resharding_strategy`
raises a `RuntimeError` synchronously, and after `set_resharding_strategy s`
every read returns exactly `s` while leaving the spec state unchanged. -/
theorem C6_strategy_read_contract {Src Dst Slice Strat : Type} :
    (∀ (src : Src) (dst : Dst) (ags : Option Slice),
        (strategyProp (specInit src dst ags :
            SpecState Src Dst Slice Strat)).1 =
          Except.error
            "Generate and set strategy in the cross-mesh communicator first." ∧
        (strategyProp (specInit src dst ags :
            SpecState Src Dst Slice Strat)).2 =
          specInit src dst ags) ∧
    (∀ (s : SpecState Src Dst Slice Strat) (strat : Strat),
        (strategyProp (set_resharding_strategy s strat)).1 =
          Except.ok strat ∧
        (strategyProp (set_resharding_strategy s strat)).2 =
          set_resharding_strategy s strat) := by
  constructor
  · intro src dst ags
    exact ⟨rfl, rfl⟩
  · intro s strat
    exact ⟨rfl, rfl⟩

/-! ## `_create_resharding_specs` and `task_spec_iter` (storage control flow)

The `resharding_specs` matrix is modelled as a total function from
(source mesh index, destination mesh index) to the dict for that mesh pair.
`pairs` is the list of rows of `np.argwhere(deps > 0)`: the code reads
`pairs[i][1]` as the source stage and `pairs[i][0]` as the destination stage.
The per-pair dict contents (one `ReshardingTaskSpec` per crossing variable,
keyed by `repr(var)`) are abstracted as the input function
`entriesFor src_stage dst_stage`; the claim only concerns where entries are
stored, which is decided by the `src_mesh_index == dst_mesh_index` test. -/

/-- Body of the loop over dependent stage pairs in
`CrossMeshCommunicator._create_resharding_specs`. -/
def reshardingSpecStep {σ : Type} (stagePlacement : Nat → Nat)
    (entriesFor : Nat → Nat → List (String × σ))
    (specs : Nat → Nat → List (String × σ)) (p : Nat × Nat) :
    Nat → Nat → List (String × σ) :=
  let srcStage := p.2
  let dstStage := p.1
  let srcMeshIndex := stagePlacement srcStage
  let dstMeshIndex := stagePlacement dstStage
  if srcMeshIndex = dstMeshIndex then specs
  else fun a b =>
    if a = srcMeshIndex ∧ b = dstMeshIndex then
      (entriesFor srcStage dstStage).foldl
        (fun d kv => dictSet d kv.1 kv.2) (specs a b)
    else specs a b

/-- Embedding of `CrossMeshCommunicator._create_resharding_specs`: start from
a matrix of empty dicts and process every dependent stage pair. -/
def create_resharding_specs {σ : Type} (pairs : List (Nat × Nat))
    (stagePlacement : Nat → Nat)
    (entriesFor : Nat → Nat → List (String × σ)) :
    Nat → Nat → List (String × σ) :=
  pairs.foldl (reshardingSpecStep stagePlacement entriesFor) (fun _ _ => [])

/-- Embedding of `CrossMeshCommunicator.task_spec_iter`: yield
`(i, j, specs[i][j])` for every nonempty cell, in row-major order. -/
def task_spec_iter {σ : Type} (numMesh : Nat)
    (specs : Nat → Nat → List (String × σ)) :
    List (Nat × Nat × List (String × σ)) :=
  (List.range numMesh).flatMap (fun i =>
    (List.range numMesh).filterMap (fun j =>
      if (specs i j).isEmpty then none else some (i, j, specs i j)))

theorem reshardingSpecs_foldl_diag {σ : Type} (stagePlacement : Nat → Nat)
    (entriesFor : Nat → Nat → List (String × σ)) :
    ∀ (pairs : List (Nat × Nat)) (m : Nat → Nat → List (String × σ)),
      (∀ i, m i i = []) →
      ∀ i, (pairs.foldl (reshardingSpecStep stagePlacement entriesFor) m) i i
        = [] := by
  intro pairs
  induction pairs with
  | nil => intro m hm i; exact hm i
  | cons p rest ih =>
      intro m hm i
      refine ih _ ?_ i
      intro a
      unfold reshardingSpecStep
      by_cases hsame : stagePlacement p.2 = stagePlacement p.1
      · simp [hsame, hm a]
      · simp only [if_neg hsame]
        by_cases hab : a = stagePlacement p.2 ∧ a = stagePlacement p.1
        · exact absurd (hab.1.symm.trans hab.2) hsame
        · simp [hab, hm a]

/-- C10: after `_create_resharding_specs`, every diagonal cell
`resharding_specs[i][i]` is an empty dict, and `task_spec_iter` never yields a
pair of equal mesh indices. -/
theorem C10_no_same_mesh_specs {σ : Type} (pairs : List (Nat × Nat))
    (stagePlacement : Nat → Nat)
    (entriesFor : Nat → Nat → List (String × σ)) (numMesh : Nat) :
    (∀ i : Nat,
        create_resharding_specs pairs stagePlacement entriesFor i i = []) ∧
    (∀ x ∈ task_spec_iter numMesh
        (create_resharding_specs pairs stagePlacement entriesFor),
      x.1 ≠ x.2.1) := by
  have hdiag : ∀ i,
      create_resharding_specs pairs stagePlacement entriesFor i i = [] :=
    fun i => reshardingSpecs_foldl_diag stagePlacement entriesFor pairs
      (fun _ _ => []) (fun _ => rfl) i
  refine ⟨hdiag, ?_⟩
  intro x hx
  rcases List.mem_flatMap.mp hx with ⟨i, _, hxi⟩
  rcases List.mem_filterMap.mp hxi with ⟨j, _, hxj⟩
  rcases hcell : (create_resharding_specs pairs stagePlacement entriesFor i
      j).isEmpty with _ | _
  · rw [hcell] at hxj
    simp only [Bool.false_eq_true, if_false, Option.some.injEq] at hxj
    subst hxj
    intro hcontra
    simp only at hcontra
    subst hcontra
    rw [hdiag i] at hcell
    simp [List.isEmpty] at hcell
  · rw [hcell] at hxj
    simp at hxj

/-- Witness for C10 at a concrete instance: two stages, stage 0 placed on
mesh 0 and stage 1 on mesh 1, one dependency edge `(dst_stage 1, src_stage 0)`
carrying one variable. -/
theorem C10_no_same_mesh_specs_witness :
    (0, 1, [("v", 0)]) ∈ task_spec_iter 2
      (create_resharding_specs [(1, 0)] (fun s => s)
        (fun _ _ => [("v", (0 : Nat))])) ∧
    (0 : Nat) ≠ 1 :=
  ⟨by decide,
    (C10_no_same_mesh_specs [(1, 0)] (fun s => s)
        (fun _ _ => [("v", (0 : Nat))]) 2).2
      (0, 1, [("v", 0)]) (by decide)⟩

/-! ## `CollectiveGroup.__init__`

A physical mesh is modelled by the four attributes the constructor reads.
The single Python loop writes several independent dictionaries; the embedding
builds each one from its own write sequence, which is sound because no loop
iteration reads any of the dictionaries.  List indexing `xs[e]` is modelled by
`List.getD e` (the well-formedness hypotheses of the theorems keep every index
in range). -/

structure PhysicalMesh (W : Type) where
  host_ips : List String
  workers : List W
  num_devices_per_host : Nat
  device_strs : List String

/-- Number of hosts of a mesh (`len(mesh.host_ips)`). -/
def PhysicalMesh.num_hosts {W : Type} (m : PhysicalMesh W) : Nat :=
  m.host_ips.length

/-- Total number of devices of a mesh. -/
def PhysicalMesh.num_devices {W : Type} (m : PhysicalMesh W) : Nat :=
  m.host_ips.length * m.num_devices_per_host

/-- Write sequence performed on `device_str_to_rank_map` by the two host
loops of `CollectiveGroup.__init__`, in program order.  Note that the
destination loop indexes `dst_mesh.device_strs` with
`i * src_mesh.num_devices_per_host + j` — with the SOURCE mesh's
devices-per-host count — exactly as the code does. -/
def rankMapWrites {W : Type} (src_mesh dst_mesh : PhysicalMesh W) :
    List (String × (Nat × Nat)) :=
  ((List.range src_mesh.host_ips.length).flatMap fun i =>
    (List.range src_mesh.num_devices_per_host).map fun j =>
      (src_mesh.device_strs.getD (i * src_mesh.num_devices_per_host + j) "",
        (i, j))) ++
  ((List.range dst_mesh.host_ips.length).flatMap fun i =>
    (List.range dst_mesh.num_devices_per_host).map fun j =>
      (dst_mesh.device_strs.getD (i * src_mesh.num_devices_per_host + j) "",
        (i + src_mesh.host_ips.length, j)))

/-- The `device_str_to_rank_map` dict built by `CollectiveGroup.__init__`. -/
def device_str_to_rank_map {W : Type} (src_mesh dst_mesh : PhysicalMesh W) :
    List (String × (Nat × Nat)) :=
  (rankMapWrites src_mesh dst_mesh).foldl
    (fun d kv => dictSet d kv.1 kv.2) []

/-- The `mesh_workers` list built by `CollectiveGroup.__init__`: a
`[None] * num_host` list whose slot `i` is assigned `src_mesh.workers[i]` and
whose slot `i + len(src_mesh.host_ips)` is assigned `dst_mesh.workers[i]`. -/
def mesh_workers {W : Type} (src_mesh dst_mesh : PhysicalMesh W) :
    List (Option W) :=
  (List.range dst_mesh.host_ips.length).foldl
    (fun acc i => acc.set (i + src_mesh.host_ips.length)
      dst_mesh.workers[i]?)
    ((List.range src_mesh.host_ips.length).foldl
      (fun acc i => acc.set i src_mesh.workers[i]?)
      (List.replicate (src_mesh.host_ips.length + dst_mesh.host_ips.length)
        none))

/-! ### Dictionary lemmas -/

theorem dictSet_of_not_mem {K V : Type} [DecidableEq K]
    (d : List (K × V)) (k : K) (v : V) (h : ∀ kv ∈ d, kv.1 ≠ k) :
    dictSet d k v = d ++ [(k, v)] := by
  unfold dictSet
  rw [if_neg]
  intro hany
  rcases List.any_eq_true.mp hany with ⟨kv, hkv, heq⟩
  exact h kv hkv (by simpa using heq)

theorem foldl_dictSet_eq_append {K V : Type} [DecidableEq K] :
    ∀ (pairs d : List (K × V)), (((d ++ pairs).map Prod.fst)).Nodup →
      pairs.foldl (fun acc kv => dictSet acc kv.1 kv.2) d = d ++ pairs := by
  intro pairs
  induction pairs with
  | nil => intro d _; simp
  | cons kv rest ih =>
      intro d hnd
      have hk : ∀ p ∈ d, p.1 ≠ kv.1 := by
        intro p hp hpk
        have h1 : p.1 ∈ d.map Prod.fst := List.mem_map_of_mem _ hp
        have h2 : p.1 ∈ (kv :: rest).map Prod.fst := by
          rw [hpk]; simp
        rw [List.map_append, List.nodup_append] at hnd
        exact hnd.2.2 h1 h2
      have step : (kv :: rest).foldl (fun acc q => dictSet acc q.1 q.2) d =
          rest.foldl (fun acc q => dictSet acc q.1 q.2) (d ++ [kv]) := by
        simp only [List.foldl_cons]
        rw [dictSet_of_not_mem d kv.1 kv.2 hk]
      rw [step, ih (d ++ [kv]) (by simpa using hnd)]
      simp

theorem dictGet_of_mem_nodup {K V : Type} [DecidableEq K] :
    ∀ (pairs : List (K × V)), ((pairs.map Prod.fst)).Nodup →
      ∀ (k : K) (v : V), (k, v) ∈ pairs → dictGet pairs k = some v := by
  intro pairs
  induction pairs with
  | nil => intro _ k v h; simp at h
  | cons kv rest ih =>
      intro hnd k v hmem
      rw [List.map_cons, List.nodup_cons] at hnd
      rcases List.mem_cons.mp hmem with heq | hrest
      · rw [← heq]
        simp [dictGet, List.find?]
      · have hne2 : (kv.1 = k) = False := by
          simp only [eq_iff_iff, iff_false]
          intro hk
          have hkm : k ∈ rest.map Prod.fst :=
            List.mem_map_of_mem Prod.fst hrest
          rw [hk] at hnd
          exact hnd.1 hkm
        have hstep : dictGet (kv :: rest) k = dictGet rest k := by
          simp [dictGet, List.find?, hne2]
        rw [hstep]
        exact ih hnd.2 k v hrest

/-! ### Index-flattening lemmas -/

theorem range_flatMap_map_mul {α : Type} (g : Nat → α) :
    ∀ (a b : Nat),
      (List.range a).flatMap
        (fun i => (List.range b).map fun j => g (i * b + j)) =
      (List.range (a * b)).map g := by
  intro a b
  induction a with
  | zero => simp
  | succ a ih =>
      rw [List.range_succ, List.flatMap_append, ih]
      have : (a + 1) * b = a * b + b := by ring
      rw [this, List.range_add, List.map_append, List.map_map]
      congr 1
      simp only [List.flatMap_cons, List.flatMap_nil, List.append_nil]
      apply List.map_congr_left
      intro j _
      simp

theorem map_getD_range {α : Type} (l : List α) (d : α) :
    (List.range l.length).map (fun i => l.getD i d) = l := by
  apply List.ext_getElem
  · simp
  · intro n h1 h2
    rw [List.getElem_map, List.getElem_range]
    exact List.getD_eq_getElem l d h2

theorem keys_of_grid {α β : Type} (g : Nat → α) (h : Nat → Nat → β)
    (a b : Nat) :
    ((List.range a).flatMap fun i =>
        (List.range b).map fun j => (g (i * b + j), h i j)).map Prod.fst =
      (List.range (a * b)).map g := by
  rw [List.map_flatMap]
  simp only [List.map_map]
  have hcomp : ∀ i : Nat,
      (Prod.fst ∘ fun j => (g (i * b + j), h i j)) =
        fun j => g (i * b + j) := by
    intro i; funext j; rfl
  simp only [hcomp]
  exact range_flatMap_map_mul g a b

/-- Keys of the rank-map write sequence, given well-formed meshes with equal
devices-per-host counts: exactly the source device strings followed by the
destination device strings. -/
theorem rankMapWrites_keys {W : Type} (src_mesh dst_mesh : PhysicalMesh W)
    (hsd : src_mesh.device_strs.length =
      src_mesh.num_hosts * src_mesh.num_devices_per_host)
    (hdd : dst_mesh.device_strs.length =
      dst_mesh.num_hosts * dst_mesh.num_devices_per_host)
    (hdph : src_mesh.num_devices_per_host = dst_mesh.num_devices_per_host) :
    (rankMapWrites src_mesh dst_mesh).map Prod.fst =
      src_mesh.device_strs ++ dst_mesh.device_strs := by
  unfold rankMapWrites
  rw [List.map_append]
  congr 1
  · rw [keys_of_grid (fun t => src_mesh.device_strs.getD t "")
      (fun i j => (i, j)) src_mesh.host_ips.length
      src_mesh.num_devices_per_host]
    have hlen : src_mesh.device_strs.length =
        src_mesh.host_ips.length * src_mesh.num_devices_per_host := hsd
    rw [← hlen]
    exact map_getD_range _ _
  · rw [hdph]
    rw [keys_of_grid (fun t => dst_mesh.device_strs.getD t "")
      (fun i j => (i + src_mesh.host_ips.length, j))
      dst_mesh.host_ips.length dst_mesh.num_devices_per_host]
    have hlen : dst_mesh.device_strs.length =
        dst_mesh.host_ips.length * dst_mesh.num_devices_per_host := hdd
    rw [← hlen]
    exact map_getD_range _ _

/-! ### `mesh_workers` fold lemmas -/

theorem foldl_set_length {α : Type} (g : Nat → Nat) (f : Nat → α) :
    ∀ (n : Nat) (l : List α),
      ((List.range n).foldl (fun acc i => acc.set (g i) (f i)) l).length =
        l.length := by
  intro n
  induction n with
  | zero => intro l; rfl
  | succ n ih =>
      intro l
      rw [List.range_succ, List.foldl_append]
      simp only [List.foldl_cons, List.foldl_nil, List.length_set]
      exact ih l

theorem foldl_set_getElem?_untouched {α : Type} (g : Nat → Nat) (f : Nat → α) :
    ∀ (n : Nat) (l : List α) (k : Nat), (∀ i, i < n → g i ≠ k) →
      ((List.range n).foldl (fun acc i => acc.set (g i) (f i)) l)[k]? =
        l[k]? := by
  intro n
  induction n with
  | zero => intro l k _; rfl
  | succ n ih =>
      intro l k hk
      rw [List.range_succ, List.foldl_append]
      simp only [List.foldl_cons, List.foldl_nil]
      rw [List.getElem?_set_ne (hk n (Nat.lt_succ_self n))]
      exact ih l k (fun i hi => hk i (Nat.lt_succ_of_lt hi))

theorem foldl_set_getElem?_hit {α : Type} (g : Nat → Nat) (f : Nat → α) :
    ∀ (n : Nat) (l : List α) (i k : Nat), i < n →
      (∀ j, j < n → g j = g i → j = i) → g i < l.length → g i = k →
      ((List.range n).foldl (fun acc i => acc.set (g i) (f i)) l)[k]? =
        some (f i) := by
  intro n
  induction n with
  | zero => intro l i k h; omega
  | succ n ih =>
      intro l i k hi hinj hlen hk
      rw [List.range_succ, List.foldl_append]
      simp only [List.foldl_cons, List.foldl_nil]
      by_cases hin : i = n
      · subst hin
        rw [← hk]
        apply List.getElem?_set_eq_of_lt
        rw [foldl_set_length]
        exact hlen
      · have hiln : i < n := by omega
        have hgne : g n ≠ k := by
          intro hgn
          exact hin (hinj n (Nat.lt_succ_self n) (hgn.trans hk.symm)).symm
        rw [List.getElem?_set_ne hgne]
        exact ih l i k hiln
          (fun j hj hgj => hinj j (Nat.lt_succ_of_lt hj) hgj) hlen hk

theorem foldl_set_id_hit {α : Type} (f : Nat → α) (n : Nat) (l : List α)
    (k : Nat) (hk : k < n) (hlen : k < l.length) :
    ((List.range n).foldl (fun acc i => acc.set i (f i)) l)[k]? =
      some (f k) :=
  foldl_set_getElem?_hit (fun i => i) f n l k k hk (fun _ _ hj => hj) hlen rfl

theorem foldl_set_shift_hit {α : Type} (off : Nat) (f : Nat → α) (n : Nat)
    (l : List α) (i : Nat) (hi : i < n) (hlen : i + off < l.length) :
    ((List.range n).foldl (fun acc j => acc.set (j + off) (f j)) l)[i + off]? =
      some (f i) :=
  foldl_set_getElem?_hit (fun j => j + off) f n l i (i + off) hi
    (fun _ _ hj => Nat.add_right_cancel hj) hlen rfl

theorem foldl_set_shift_untouched {α : Type} (off : Nat) (f : Nat → α)
    (n : Nat) (l : List α) (k : Nat) (hk : ∀ i, i < n → i + off ≠ k) :
    ((List.range n).foldl (fun acc j => acc.set (j + off) (f j)) l)[k]? =
      l[k]? :=
  foldl_set_getElem?_untouched (fun j => j + off) f n l k hk

theorem foldl_set_id_untouched {α : Type} (f : Nat → α)
    (n : Nat) (l : List α) (k : Nat) (hk : ∀ i, i < n → i ≠ k) :
    ((List.range n).foldl (fun acc i => acc.set i (f i)) l)[k]? = l[k]? :=
  foldl_set_getElem?_untouched (fun i => i) f n l k hk

/-- The `mesh_workers` list is exactly the source workers followed by the
destination workers (each wrapped in `some`), for well-formed meshes. -/
theorem mesh_workers_eq {W : Type} (src_mesh dst_mesh : PhysicalMesh W)
    (hsw : src_mesh.workers.length = src_mesh.host_ips.length)
    (hdw : dst_mesh.workers.length = dst_mesh.host_ips.length) :
    mesh_workers src_mesh dst_mesh =
      src_mesh.workers.map some ++ dst_mesh.workers.map some := by
  apply List.ext_getElem?
  intro k
  unfold mesh_workers
  by_cases hk1 : k < src_mesh.host_ips.length
  · rw [foldl_set_shift_untouched _ _ _ _ k (fun i _ => by omega)]
    rw [foldl_set_id_hit _ _ _ k hk1 (by rw [List.length_replicate]; omega)]
    rw [List.getElem?_append_left (by rw [List.length_map, hsw]; exact hk1)]
    rw [List.getElem?_map]
    rw [List.getElem?_eq_getElem (by rw [hsw]; exact hk1)]
    rfl
  · by_cases hk2 : k < src_mesh.host_ips.length + dst_mesh.host_ips.length
    · nth_rewrite 1 [show k = (k - src_mesh.host_ips.length) +
        src_mesh.host_ips.length from by omega]
      rw [foldl_set_shift_hit _ _ _ _ (k - src_mesh.host_ips.length)
        (by omega)
        (by rw [foldl_set_length, List.length_replicate]; omega)]
      rw [List.getElem?_append_right (by rw [List.length_map, hsw]; omega)]
      rw [List.length_map, hsw]
      rw [List.getElem?_map]
      rw [List.getElem?_eq_getElem (by rw [hdw]; omega)]
      rfl
    · rw [foldl_set_shift_untouched _ _ _ _ k (fun i hi => by omega)]
      rw [foldl_set_id_untouched _ _ _ k (fun i hi => by omega)]
      rw [List.getElem?_eq_none (by rw [List.length_replicate]; omega)]
      rw [List.getElem?_eq_none (by
        rw [List.length_append, List.length_map, List.length_map, hsw, hdw]
        omega)]

/-- Dict built by folding the rank-map writes is the write list itself when
all keys are distinct. -/
theorem device_str_to_rank_map_eq {W : Type}
    (src_mesh dst_mesh : PhysicalMesh W)
    (hnd : ((rankMapWrites src_mesh dst_mesh).map Prod.fst).Nodup) :
    device_str_to_rank_map src_mesh dst_mesh =
      rankMapWrites src_mesh dst_mesh := by
  unfold device_str_to_rank_map
  have := foldl_dictSet_eq_append (rankMapWrites src_mesh dst_mesh) []
  simp only [List.nil_append] at this
  exact this hnd

/-- C2 (amended): for well-formed meshes whose devices-per-host counts agree
and whose device strings are globally distinct, `CollectiveGroup.__init__`
assigns ranks as a function of the two meshes alone: `mesh_workers` holds all
source workers first (ranks `[0, num_source_hosts)`) then all destination
workers, in mesh order; the rank map sends the `j`-th device of source host
`i` to `(i, j)` and the `j`-th device of destination host `i` to
`(num_source_hosts + i, j)`; and every device of both meshes is covered. -/
theorem C2_collective_group_ranks {W : Type}
    (src_mesh dst_mesh : PhysicalMesh W)
    (hsw : src_mesh.workers.length = src_mesh.host_ips.length)
    (hdw : dst_mesh.workers.length = dst_mesh.host_ips.length)
    (hsd : src_mesh.device_strs.length =
      src_mesh.num_hosts * src_mesh.num_devices_per_host)
    (hdd : dst_mesh.device_strs.length =
      dst_mesh.num_hosts * dst_mesh.num_devices_per_host)
    (hdph : src_mesh.num_devices_per_host = dst_mesh.num_devices_per_host)
    (hnodup : (src_mesh.device_strs ++ dst_mesh.device_strs).Nodup) :
    mesh_workers src_mesh dst_mesh =
      src_mesh.workers.map some ++ dst_mesh.workers.map some ∧
    (∀ i j : Nat, i < src_mesh.num_hosts →
      j < src_mesh.num_devices_per_host →
      dictGet (device_str_to_rank_map src_mesh dst_mesh)
        (src_mesh.device_strs.getD
          (i * src_mesh.num_devices_per_host + j) "") = some (i, j)) ∧
    (∀ i j : Nat, i < dst_mesh.num_hosts →
      j < dst_mesh.num_devices_per_host →
      dictGet (device_str_to_rank_map src_mesh dst_mesh)
        (dst_mesh.device_strs.getD
          (i * dst_mesh.num_devices_per_host + j) "") =
        some (src_mesh.num_hosts + i, j)) ∧
    (∀ d ∈ src_mesh.device_strs ++ dst_mesh.device_strs,
      (dictGet (device_str_to_rank_map src_mesh dst_mesh) d).isSome) := by
  have hkeys := rankMapWrites_keys src_mesh dst_mesh hsd hdd hdph
  have hnd : ((rankMapWrites src_mesh dst_mesh).map Prod.fst).Nodup := by
    rw [hkeys]; exact hnodup
  have hmap := device_str_to_rank_map_eq src_mesh dst_mesh hnd
  refine ⟨mesh_workers_eq src_mesh dst_mesh hsw hdw, ?_, ?_, ?_⟩
  · intro i j hi hj
    rw [hmap]
    apply dictGet_of_mem_nodup _ hnd
    unfold rankMapWrites
    apply List.mem_append_left
    apply List.mem_flatMap.mpr
    exact ⟨i, List.mem_range.mpr hi,
      List.mem_map.mpr ⟨j, List.mem_range.mpr hj, rfl⟩⟩
  · intro i j hi hj
    rw [hmap]
    have hcomm : (src_mesh.num_hosts + i, j) =
        (i + src_mesh.host_ips.length, j) := by
      unfold PhysicalMesh.num_hosts
      rw [Nat.add_comm]
    rw [hcomm]
    apply dictGet_of_mem_nodup _ hnd
    unfold rankMapWrites
    apply List.mem_append_right
    apply List.mem_flatMap.mpr
    refine ⟨i, List.mem_range.mpr hi,
      List.mem_map.mpr ⟨j, List.mem_range.mpr hj, ?_⟩⟩
    rw [hdph]
  · intro d hd
    rw [hmap]
    have hdk : d ∈ (rankMapWrites src_mesh dst_mesh).map Prod.fst := by
      rw [hkeys]; exact hd
    rcases List.mem_map.mp hdk with ⟨kv, hkv, hfst⟩
    rw [← hfst]
    rw [dictGet_of_mem_nodup _ hnd kv.1 kv.2 hkv]
    rfl

/-- Source mesh for the C2 counterexample: one host with one device. -/
def cexSrcMesh : PhysicalMesh Nat :=
  ⟨["h0"], [0], 1, ["s0"]⟩

/-- Destination mesh for the C2 counterexample: two hosts with two devices
each, so its devices-per-host count differs from the source mesh. -/
def cexDstMesh : PhysicalMesh Nat :=
  ⟨["h1", "h2"], [1, 2], 2, ["d0", "d1", "d2", "d3"]⟩

/-- C2 counterexample: with differing devices-per-host counts the destination
loop indexes `dst_mesh.device_strs` with the source count, so the j-th device
of destination host i is NOT mapped to rank `(num_source_hosts + i, j)` (the
device `d3` is never ranked at all, and `d2` receives the wrong rank). -/
theorem C2_collective_group_ranks_counterexample :
    ¬ (∀ i j : Nat, i < cexDstMesh.num_hosts →
        j < cexDstMesh.num_devices_per_host →
        dictGet (device_str_to_rank_map cexSrcMesh cexDstMesh)
          (cexDstMesh.device_strs.getD
            (i * cexDstMesh.num_devices_per_host + j) "") =
          some (cexSrcMesh.num_hosts + i, j)) := by
  intro h
  have := h 1 1 (by decide) (by decide)
  revert this
  decide

/-- Source mesh for the C2 witness: one host, one device. -/
def cwSrcMesh : PhysicalMesh Nat :=
  ⟨["a0"], [0], 1, ["s0"]⟩

/-- Destination mesh for the C2 witness: one host, one device (equal
devices-per-host count). -/
def cwDstMesh : PhysicalMesh Nat :=
  ⟨["b0"], [1], 1, ["d0"]⟩

/-- Witness for the amended C2 theorem at concrete well-formed meshes. -/
theorem C2_collective_group_ranks_witness :
    (cwSrcMesh.device_strs ++ cwDstMesh.device_strs).Nodup ∧
    dictGet (device_str_to_rank_map cwSrcMesh cwDstMesh)
      (cwDstMesh.device_strs.getD
        (0 * cwDstMesh.num_devices_per_host + 0) "") =
      some (cwSrcMesh.num_hosts + 0, 0) :=
  ⟨by decide,
    (C2_collective_group_ranks cwSrcMesh cwDstMesh rfl rfl rfl rfl rfl
      (by decide)).2.2.1 0 0 (by decide) (by decide)⟩

/-! ## Load-balanced strategy generation
(`_generate_send_recv_resharding_strategy_by_loads`)

The generator reads, per source tile-slice, the slice's replica holders and
its size; per destination tile, the replica device strings.  The two
process-wide load dictionaries are modelled as total functions
`String → Nat` (the Python dicts are pre-populated with every device of every
mesh at load `0`).  The Python expression
`min(loads, key=loads.get)` on the dict comprehension
`{sender: self._sender_loads[sender] for sender in replicas}` is modelled by
`argminDict` over the association list the comprehension builds. -/

structure SrcTileSlice where
  replica_device_strs : List String
  slice_size : Nat
deriving DecidableEq, Repr

structure StrategyState where
  sender_loads : String → Nat
  receiver_loads : String → Nat

/-- Model of Python `min(d, key=d.get)` over a dict `d`: scan the items in
insertion order, keeping the first item with the least value, and return its
key (`none` on an empty dict, where Python raises `ValueError`). -/
def argminDict : List (String × Nat) → Option String
  | [] => none
  | kv :: rest =>
      some ((rest.foldl
        (fun best cur => if cur.2 < best.2 then cur else best) kv).1)

/-- Left fold computing the first minimum of `f` over `k :: rest`. -/
def foldMin (f : String → Nat) (k : String) (rest : List String) : String :=
  rest.foldl (fun best cur => if f cur < f best then cur else best) k

/-- Embedding of one iteration of the innermost loop of
`_generate_send_recv_resharding_strategy_by_loads`: build the loads dict for
the slice's replica holders, pick the minimum-load sender, then add the slice
size to that sender's send load and to the receiver's receive load. -/
def assignOne (st : StrategyState) (receiver : String)
    (slice : SrcTileSlice) : Option String × StrategyState :=
  match argminDict (slice.replica_device_strs.foldl
    (fun d sender => dictSet d sender (st.sender_loads sender)) []) with
  | none => (none, st)
  | some sender =>
      (some sender,
        { sender_loads := fun d =>
            if d = sender then st.sender_loads d + slice.slice_size
            else st.sender_loads d,
          receiver_loads := fun d =>
            if d = receiver then st.receiver_loads d + slice.slice_size
            else st.receiver_loads d })

/-- One row of `per_spec_plan` (a fixed destination replica, all slices). -/
def assignRow (st : StrategyState) (receiver : String) :
    List SrcTileSlice → List (Option String) × StrategyState
  | [] => ([], st)
  | slice :: rest =>
      let r1 := assignOne st receiver slice
      let r2 := assignRow r1.2 receiver rest
      (r1.1 :: r2.1, r2.2)

/-- One `per_spec_plan` (all destination replicas of one destination tile). -/
def assignTile (st : StrategyState) (receivers : List String)
    (slices : List SrcTileSlice) : List (List (Option String)) × StrategyState :=
  match receivers with
  | [] => ([], st)
  | receiver :: rest =>
      let r1 := assignRow st receiver slices
      let r2 := assignTile r1.2 rest slices
      (r1.1 :: r2.1, r2.2)

/-- All `per_spec_plans` of one task spec (the loop over
`spec.dst_tile_to_src_tiles_map`). -/
def generateSpecPlans (st : StrategyState) :
    List (List String × List SrcTileSlice) →
      List (List (List (Option String))) × StrategyState
  | [] => ([], st)
  | tile :: rest =>
      let r1 := assignTile st tile.1 tile.2
      let r2 := generateSpecPlans r1.2 rest
      (r1.1 :: r2.1, r2.2)

/-- Strategy generation over successive task specs, sharing the load state
(the communicator loop over `task_spec_iter`). -/
def generateAllStrategies (st : StrategyState) :
    List (List (List String × List SrcTileSlice)) →
      List (List (List (List (Option String)))) × StrategyState
  | [] => ([], st)
  | spec :: rest =>
      let r1 := generateSpecPlans st spec
      let r2 := generateAllStrategies r1.2 rest
      (r1.1 :: r2.1, r2.2)

/-! ### The first-minimum characterization of `argminDict` -/

theorem foldMin_cons (f : String → Nat) (k c : String) (r2 : List String) :
    foldMin f k (c :: r2) = foldMin f (if f c < f k then c else k) r2 := by
  unfold foldMin
  rw [List.foldl_cons]

/-- The left fold keeps the FIRST element attaining the minimum: the list
splits as `p ++ m :: q` with everything before `m` strictly larger and
everything after `m` at least as large. -/
theorem foldMin_firstAt (f : String → Nat) :
    ∀ (rest : List String) (k : String),
      ∃ p q, k :: rest = p ++ foldMin f k rest :: q ∧
        (∀ x ∈ p, f (foldMin f k rest) < f x) ∧
        (∀ x ∈ q, f (foldMin f k rest) ≤ f x) := by
  intro rest
  induction rest with
  | nil =>
      intro k
      exact ⟨[], [], by simp [foldMin], by simp, by simp⟩
  | cons c r2 ih =>
      intro k
      rw [foldMin_cons]
      by_cases hck : f c < f k
      · rw [if_pos hck]
        rcases ih c with ⟨p2, q2, hsplit, hp2, hq2⟩
        cases p2 with
        | nil =>
            simp only [List.nil_append, List.cons.injEq] at hsplit
            refine ⟨[k], q2, ?_, ?_, hq2⟩
            · rw [List.singleton_append, ← hsplit.1, ← hsplit.2]
            · intro x hx
              rw [List.mem_singleton] at hx
              subst hx
              rw [← hsplit.1]
              exact hck
        | cons ph p2t =>
            have hph : ph = c := by
              have := congrArg (fun l => l.head?) hsplit
              simpa using this.symm
            refine ⟨k :: ph :: p2t, q2, ?_, ?_, hq2⟩
            · rw [List.cons_append, ← hsplit]
            · intro x hx
              rcases List.mem_cons.mp hx with hxk | hxrest
              · subst hxk
                have hc : f (foldMin f c r2) < f c := by
                  apply hp2
                  rw [hph]
                  exact List.mem_cons_self _ _
                omega
              · exact hp2 x hxrest
      · rw [if_neg hck]
        rcases ih k with ⟨p2, q2, hsplit, hp2, hq2⟩
        cases p2 with
        | nil =>
            simp only [List.nil_append, List.cons.injEq] at hsplit
            refine ⟨[], c :: q2, ?_, by simp, ?_⟩
            · rw [List.nil_append, ← hsplit.1, hsplit.2]
            · intro x hx
              rcases List.mem_cons.mp hx with hxc | hxq
              · subst hxc
                rw [← hsplit.1]
                omega
              · exact hq2 x hxq
        | cons ph p2t =>
            have hph : ph = k := by
              have := congrArg (fun l => l.head?) hsplit
              simpa using this.symm
            have hr2 : r2 = p2t ++ foldMin f k r2 :: q2 := by
              have := congrArg (fun l => l.tail) hsplit
              simpa using this
            refine ⟨k :: c :: p2t, q2, ?_, ?_, hq2⟩
            · have hgoal : k :: c :: r2 =
                  k :: c :: (p2t ++ foldMin f k r2 :: q2) := by
                rw [← hr2]
              simpa using hgoal
            · intro x hx
              have hmk : f (foldMin f k r2) < f k := by
                apply hp2
                rw [hph]
                exact List.mem_cons_self _ _
              rcases List.mem_cons.mp hx with hxk | hx2
              · subst hxk; exact hmk
              · rcases List.mem_cons.mp hx2 with hxc | hxp
                · subst hxc; omega
                · exact hp2 x (List.mem_cons_of_mem _ hxp)

theorem foldl_pair_min (f : String → Nat) :
    ∀ (rest : List String) (k : String),
      (rest.map (fun r => (r, f r))).foldl
        (fun best cur => if cur.2 < best.2 then cur else best) (k, f k) =
      (foldMin f k rest, f (foldMin f k rest)) := by
  intro rest
  induction rest with
  | nil => intro k; simp [foldMin]
  | cons c r2 ih =>
      intro k
      rw [List.map_cons, List.foldl_cons, foldMin_cons]
      have hstep : (if (c, f c).2 < (k, f k).2 then (c, f c) else (k, f k)) =
          ((if f c < f k then c else k), f (if f c < f k then c else k)) := by
        by_cases h : f c < f k <;> simp [h]
      rw [hstep]
      exact ih _

theorem loadsDict_eq (f : String → Nat) (l : List String) (hnd : l.Nodup) :
    l.foldl (fun d sender => dictSet d sender (f sender)) [] =
      l.map (fun r => (r, f r)) := by
  have hkeys : (l.map (fun r => (r, f r))).map Prod.fst = l := by
    rw [List.map_map]
    exact List.map_id _
  have h2 := foldl_dictSet_eq_append (l.map fun r => (r, f r)) []
  rw [List.nil_append] at h2
  have h3 := h2 (by rw [hkeys]; exact hnd)
  rw [List.foldl_map] at h3
  exact h3

theorem argmin_loadsDict (f : String → Nat) (k : String) (rest : List String)
    (hnd : (k :: rest).Nodup) :
    argminDict ((k :: rest).foldl
      (fun d sender => dictSet d sender (f sender)) []) =
      some (foldMin f k rest) := by
  rw [loadsDict_eq f _ hnd, List.map_cons]
  show some ((rest.map (fun r => (r, f r))).foldl
    (fun best cur => if cur.2 < best.2 then cur else best) (k, f k)).1 = _
  rw [foldl_pair_min]

theorem foldMin_min (f : String → Nat) (rest : List String) (k : String) :
    foldMin f k rest ∈ k :: rest ∧
      ∀ x ∈ k :: rest, f (foldMin f k rest) ≤ f x := by
  rcases foldMin_firstAt f rest k with ⟨p, q, hsp, hp, hq⟩
  constructor
  · rw [hsp]
    exact List.mem_append_right _ (List.mem_cons_self _ _)
  · intro x hx
    rw [hsp] at hx
    rcases List.mem_append.mp hx with hxp | hxm
    · exact le_of_lt (hp x hxp)
    · rcases List.mem_cons.mp hxm with hxe | hxq
      · rw [hxe]
      · exact hq x hxq

theorem assignOne_fst (st : StrategyState) (receiver : String)
    (slice : SrcTileSlice) (s : String)
    (harg : argminDict (slice.replica_device_strs.foldl
      (fun d sender => dictSet d sender (st.sender_loads sender)) []) =
      some s) :
    (assignOne st receiver slice).1 = some s := by
  unfold assignOne
  rw [harg]

theorem assignOne_update (st : StrategyState) (receiver : String)
    (slice : SrcTileSlice) (m : String)
    (hm : (assignOne st receiver slice).1 = some m) :
    (assignOne st receiver slice).2.sender_loads =
      (fun d => if d = m then st.sender_loads d + slice.slice_size
        else st.sender_loads d) ∧
    (assignOne st receiver slice).2.receiver_loads =
      (fun d => if d = receiver then st.receiver_loads d + slice.slice_size
        else st.receiver_loads d) := by
  rcases hargm : argminDict (slice.replica_device_strs.foldl
      (fun d sender => dictSet d sender (st.sender_loads sender)) [])
    with _ | s
  · unfold assignOne at hm
    rw [hargm] at hm
    simp at hm
  · unfold assignOne at hm ⊢
    rw [hargm] at hm ⊢
    simp only [Option.some.injEq] at hm
    subst hm
    exact ⟨rfl, rfl⟩

/-- C3: the chosen sender for every (destination tile, replica, slice)
position is the FIRST replica holder of the slice, in
`replica_device_strs` order, whose send-load counter is minimal among the
holders (the split `p ++ m :: q` with everything in `p` strictly more loaded
and everything in `q` at least as loaded); immediately afterwards the
sender's send load and the receiver's receive load each grow by the slice
size (all other counters untouched); and the load state threads through
successive destination tiles and successive task specs (splitting the
processed list splits the run with the intermediate state carried over). -/
theorem C3_load_balanced_choice :
    (∀ (st : StrategyState) (receiver : String) (slice : SrcTileSlice),
        slice.replica_device_strs.Nodup → slice.replica_device_strs ≠ [] →
        ∃ m p q, (assignOne st receiver slice).1 = some m ∧
          slice.replica_device_strs = p ++ m :: q ∧
          (∀ x ∈ p, st.sender_loads m < st.sender_loads x) ∧
          (∀ x ∈ q, st.sender_loads m ≤ st.sender_loads x)) ∧
    (∀ (st : StrategyState) (receiver : String) (slice : SrcTileSlice)
        (m : String), (assignOne st receiver slice).1 = some m →
        ((assignOne st receiver slice).2.sender_loads m =
            st.sender_loads m + slice.slice_size ∧
          (∀ d, d ≠ m → (assignOne st receiver slice).2.sender_loads d =
            st.sender_loads d)) ∧
        ((assignOne st receiver slice).2.receiver_loads receiver =
            st.receiver_loads receiver + slice.slice_size ∧
          (∀ d, d ≠ receiver →
            (assignOne st receiver slice).2.receiver_loads d =
              st.receiver_loads d))) ∧
    (∀ (st : StrategyState) (t1 t2 : List (List String × List SrcTileSlice)),
        generateSpecPlans st (t1 ++ t2) =
          ((generateSpecPlans st t1).1 ++
              (generateSpecPlans (generateSpecPlans st t1).2 t2).1,
            (generateSpecPlans (generateSpecPlans st t1).2 t2).2)) ∧
    (∀ (st : StrategyState)
        (s1 s2 : List (List (List String × List SrcTileSlice))),
        generateAllStrategies st (s1 ++ s2) =
          ((generateAllStrategies st s1).1 ++
              (generateAllStrategies (generateAllStrategies st s1).2 s2).1,
            (generateAllStrategies (generateAllStrategies st s1).2 s2).2)) := by
  refine ⟨?_, ?_, ?_, ?_⟩
  · intro st receiver slice hnd hne
    rcases hrep : slice.replica_device_strs with _ | ⟨k, rest⟩
    · exact absurd hrep hne
    · rw [hrep] at hnd
      have harg := argmin_loadsDict st.sender_loads k rest hnd
      rcases foldMin_firstAt st.sender_loads rest k with ⟨p, q, hsp, hp, hq⟩
      refine ⟨foldMin st.sender_loads k rest, p, q, ?_, ?_, hp, hq⟩
      · apply assignOne_fst
        rw [hrep]
        exact harg
      · exact hsp
  · intro st receiver slice m hm
    rcases assignOne_update st receiver slice m hm with ⟨hs, hr⟩
    refine ⟨⟨?_, ?_⟩, ?_, ?_⟩
    · rw [hs]; simp
    · intro d hd; rw [hs]; simp [hd]
    · rw [hr]; simp
    · intro d hd; rw [hr]; simp [hd]
  · intro st t1 t2
    induction t1 generalizing st with
    | nil => simp [generateSpecPlans]
    | cons x t1 ih =>
        simp only [List.cons_append, generateSpecPlans, List.append_eq]
        rw [ih]
  · intro st s1 s2
    induction s1 generalizing st with
    | nil => simp [generateAllStrategies]
    | cons x s1 ih =>
        simp only [List.cons_append, generateAllStrategies, List.append_eq]
        rw [ih]

/-- Witness for C3 at a concrete state: two equally loaded holders, the first
one in list order is chosen. -/
theorem C3_load_balanced_choice_witness :
    (["a", "b"] : List String).Nodup ∧ (["a", "b"] : List String) ≠ [] ∧
    ∃ m p q,
      (assignOne ⟨fun _ => 0, fun _ => 0⟩ "r" ⟨["a", "b"], 4⟩).1 = some m ∧
      (⟨["a", "b"], 4⟩ : SrcTileSlice).replica_device_strs = p ++ m :: q ∧
      (∀ x ∈ p, (0 : Nat) < 0) ∧ True :=
  ⟨by decide, by decide, by
    rcases C3_load_balanced_choice.1 ⟨fun _ => 0, fun _ => 0⟩ "r"
        ⟨["a", "b"], 4⟩ (by decide) (by decide) with ⟨m, p, q, h1, h2, h3, _⟩
    exact ⟨m, p, q, h1, h2, fun x hx => h3 x hx, trivial⟩⟩

/-- Iterated greedy assignment of identical slices (same replica-holder set
`R`, same volume), one assignment per receiver in the list: the situation of
the load-balance invariant claim. -/
def iterAssign (slice : SrcTileSlice) :
    StrategyState → List String → StrategyState
  | st, [] => st
  | st, r :: rest => iterAssign slice (assignOne st r slice).2 rest

theorem assignOne_preserves_balance (R : List String) (V : Nat)
    (hnd : R.Nodup) (hne : R ≠ []) (st : StrategyState) (r : String)
    (hinv : ∀ x ∈ R, ∀ y ∈ R,
      st.sender_loads x ≤ st.sender_loads y + V) :
    ∀ x ∈ R, ∀ y ∈ R,
      (assignOne st r ⟨R, V⟩).2.sender_loads x ≤
        (assignOne st r ⟨R, V⟩).2.sender_loads y + V := by
  cases R with
  | nil => exact absurd rfl hne
  | cons k rest =>
      have harg := argmin_loadsDict st.sender_loads k rest hnd
      have hm : (assignOne st r ⟨k :: rest, V⟩).1 =
          some (foldMin st.sender_loads k rest) := by
        apply assignOne_fst
        exact harg
      rcases assignOne_update st r ⟨k :: rest, V⟩ _ hm with ⟨hs, _⟩
      have hmem := (foldMin_min st.sender_loads rest k).1
      have hmin := (foldMin_min st.sender_loads rest k).2
      intro x hx y hy
      rw [hs]
      dsimp only
      by_cases hxm : x = foldMin st.sender_loads k rest
      · by_cases hym : y = foldMin st.sender_loads k rest
        · rw [if_pos hxm, if_pos hym, hxm, hym]
          omega
        · rw [if_pos hxm, if_neg hym, hxm]
          have h1 := hmin y hy
          omega
      · by_cases hym : y = foldMin st.sender_loads k rest
        · rw [if_neg hxm, if_pos hym, hym]
          have h1 := hinv x hx _ hmem
          omega
        · rw [if_neg hxm, if_neg hym]
          exact hinv x hx y hy

/-- C4: starting from all-zero send loads, after any sequence of greedy
assignments that all draw from the same replica-holder set `R` with the same
volume `V`, the loads of any two holders differ by at most `V` (so the
maximum minus the minimum is at most one slice volume).  The receiver list is
arbitrary, so the statement covers the state after every assignment step
(every prefix of a run is itself a run). -/
theorem C4_load_balance_invariant (R : List String) (V : Nat)
    (hnd : R.Nodup) (hne : R ≠ []) (st0 : StrategyState)
    (h0 : ∀ x ∈ R, st0.sender_loads x = 0) (recvs : List String) :
    ∀ x ∈ R, ∀ y ∈ R,
      (iterAssign ⟨R, V⟩ st0 recvs).sender_loads x ≤
        (iterAssign ⟨R, V⟩ st0 recvs).sender_loads y + V := by
  have hstart : ∀ x ∈ R, ∀ y ∈ R,
      st0.sender_loads x ≤ st0.sender_loads y + V := by
    intro x hx y hy
    rw [h0 x hx, h0 y hy]
    omega
  clear h0
  induction recvs generalizing st0 with
  | nil => exact hstart
  | cons r rest ih =>
      show ∀ x ∈ R, ∀ y ∈ R,
        (iterAssign ⟨R, V⟩ (assignOne st0 r ⟨R, V⟩).2 rest).sender_loads x ≤
          (iterAssign ⟨R, V⟩ (assignOne st0 r ⟨R, V⟩).2 rest).sender_loads y + V
      exact ih _ (assignOne_preserves_balance R V hnd hne st0 r hstart)

/-- Witness for C4: two holders, three assignments of volume 5; the loads of
the two holders stay within 5 of each other. -/
theorem C4_load_balance_invariant_witness :
    (["a", "b"] : List String).Nodup ∧ (["a", "b"] : List String) ≠ [] ∧
    (∀ x ∈ (["a", "b"] : List String),
      (⟨fun _ => 0, fun _ => 0⟩ : StrategyState).sender_loads x = 0) ∧
    (iterAssign ⟨["a", "b"], 5⟩ ⟨fun _ => 0, fun _ => 0⟩
        ["r1", "r2", "r3"]).sender_loads "a" ≤
      (iterAssign ⟨["a", "b"], 5⟩ ⟨fun _ => 0, fun _ => 0⟩
        ["r1", "r2", "r3"]).sender_loads "b" + 5 :=
  ⟨by decide, by decide, by intro x _; rfl,
    C4_load_balance_invariant ["a", "b"] 5 (by decide) (by decide)
      ⟨fun _ => 0, fun _ => 0⟩ (by intro x _; rfl) ["r1", "r2", "r3"]
      "a" (by decide) "b" (by decide)⟩

/-! ## Sharding specs and the allgather rewrite
(`_rewrite_allgather_specs`, `_allgather_receiver_step_and_offset`)

The `jax.interpreters.pxla` sharding-spec types are external to the
repository; they are modelled from how the code uses them: a per-tensor-axis
dimension spec that is either `Chunked [n]` or not chunked, and a mesh
mapping whose entries are `ShardedAxis axis` or `Replicated n`.  Python
failures (assert, out-of-range indexing, division by zero) are modelled with
`Except PyErr`. -/

inductive PyErr : Type
  | assertError (msg : String)
  | indexError
  | zeroDivisionError
deriving DecidableEq, Repr

inductive DimSpec : Type
  | Chunked (chunks : List Nat)
  | NoSharding
deriving DecidableEq, Repr

inductive MeshMapEntry : Type
  | ShardedAxis (axis : Nat)
  | Replicated (replicas : Nat)
deriving DecidableEq, Repr

structure ShardingSpec where
  sharding : List DimSpec
  mesh_mapping : List MeshMapEntry
deriving DecidableEq, Repr

/-- Python list indexing `xs[i]` for a natural index. -/
def pyGet {α : Type} (l : List α) (i : Nat) : Except PyErr α :=
  match l[i]? with
  | some a => Except.ok a
  | none => Except.error PyErr.indexError

/-- Python `a // b` (natural operands). -/
def pyDiv (a b : Nat) : Except PyErr Nat :=
  if b = 0 then Except.error PyErr.zeroDivisionError else Except.ok (a / b)

/-- Python `a % b` (natural operands). -/
def pyMod (a b : Nat) : Except PyErr Nat :=
  if b = 0 then Except.error PyErr.zeroDivisionError else Except.ok (a % b)

/-- Python `assert cond, msg`. -/
def pyAssert (cond : Bool) (msg : String) : Except PyErr Unit :=
  if cond then Except.ok () else Except.error (PyErr.assertError msg)

/-- The local helper `dim_spec_chunk_value`:
`spec.chunks[0] if isinstance(spec, pxla.Chunked) else 1`. -/
def dim_spec_chunk_value (spec : DimSpec) : Except PyErr Nat :=
  match spec with
  | DimSpec.Chunked cs => pyGet cs 0
  | DimSpec.NoSharding => Except.ok 1

/-- Product of the chunk values of all dimension specs (`tot_sharding`). -/
def totSharding : List DimSpec → Except PyErr Nat
  | [] => Except.ok 1
  | ds :: rest => do
      let v ← dim_spec_chunk_value ds
      let t ← totSharding rest
      pure (v * t)

/-- Indices of the `Chunked` dimensions (`chunk_dim_to_tensor_dim`),
starting the enumeration at `i`. -/
def chunkDimToTensorDim : List DimSpec → Nat → List Nat
  | [], _ => []
  | DimSpec.Chunked _ :: rest, i => i :: chunkDimToTensorDim rest (i + 1)
  | DimSpec.NoSharding :: rest, i => chunkDimToTensorDim rest (i + 1)

/-- The `shard_axes` dict (tensor axis → mesh axis), built by scanning
`mesh_mapping` with the running mesh-axis index `i`. -/
def buildShardAxes (cd2td : List Nat) :
    List MeshMapEntry → Nat → List (Nat × Nat) →
      Except PyErr (List (Nat × Nat))
  | [], _, acc => Except.ok acc
  | MeshMapEntry.ShardedAxis a :: rest, i, acc => do
      let td ← pyGet cd2td a
      buildShardAxes cd2td rest (i + 1) (dictSet acc td i)
  | MeshMapEntry.Replicated _ :: rest, i, acc =>
      buildShardAxes cd2td rest (i + 1) acc

/-- Insertion into a sorted list of keys (model of Python `sorted` on the
small `shard_axes` key set). -/
def insertSorted (x : Nat) : List Nat → List Nat
  | [] => [x]
  | y :: rest => if x ≤ y then x :: y :: rest else y :: insertSorted x rest

/-- Model of `sorted(l)` for a list of naturals. -/
def pySorted (l : List Nat) : List Nat :=
  l.foldl (fun acc x => insertSorted x acc) []

/-- The body executed when the `while` loop of `_rewrite_allgather_specs`
hits its `break`: rewrite dimension `dim` to
`Chunked [extra_sharding * chunk]`, extend `shard_axes` if needed, squeeze
the mesh axes and build the fresh two-entry mesh mapping. -/
def allgatherBreak (orig : ShardingSpec) (shard_axes : List (Nat × Nat))
    (dim new_chunked_value extra_sharding : Nat) :
    Except PyErr (ShardingSpec × Option (Nat × Nat × Nat)) := do
  let new_sharding := orig.sharding.set dim (DimSpec.Chunked [new_chunked_value])
  let shard_axes2 :=
    if (dictGet shard_axes dim).isSome then shard_axes
    else if shard_axes.any (fun kv => kv.2 = 0) then dictSet shard_axes dim 1
    else dictSet shard_axes dim 0
  let sortedKeys := pySorted (shard_axes2.map Prod.fst)
  let squeezed ← sortedKeys.mapM (fun k =>
    match dictGet shard_axes2 k with
    | some v => Except.ok v
    | none => Except.error PyErr.indexError)
  let shard_axes_reversed :=
    squeezed.enum.foldl (fun acc kv => dictSet acc kv.2 kv.1) []
  let new_mapping := (List.range 2).map (fun i =>
    match dictGet shard_axes_reversed i with
    | some v => MeshMapEntry.ShardedAxis v
    | none => MeshMapEntry.Replicated 1)
  let _ ← pyAssert (new_mapping.length < 3) "Only support 1D and 2D mesh"
  let axv ← (match dictGet shard_axes2 dim with
    | some v => Except.ok v
    | none => Except.error PyErr.indexError)
  pure (⟨new_sharding, new_mapping⟩, some (dim, axv, extra_sharding))

/-- The `while dim < len(cur_dst_sharding)` loop of
`_rewrite_allgather_specs`; `todo` counts the remaining iterations
(`len - dim`).  If the loop finishes without `break` the original spec is
returned with no extra slice (the warning branch). -/
def rewriteLoop (orig : ShardingSpec) (shape : List Nat)
    (extra_sharding : Nat) (shard_axes : List (Nat × Nat)) :
    Nat → Nat → Except PyErr (ShardingSpec × Option (Nat × Nat × Nat))
  | _, 0 => Except.ok (orig, none)
  | dim, todo + 1 => do
      let dim_spec ← pyGet orig.sharding dim
      let dim_chunked_value ← dim_spec_chunk_value dim_spec
      let new_chunked_value := extra_sharding * dim_chunked_value
      let shapeDim ← pyGet shape dim
      let rem ← pyMod shapeDim new_chunked_value
      if rem = 0 then
        match dictGet shard_axes dim with
        | some ax =>
            if ax ≠ 0 then
              rewriteLoop orig shape extra_sharding shard_axes (dim + 1) todo
            else
              allgatherBreak orig shard_axes dim new_chunked_value
                extra_sharding
        | none =>
            allgatherBreak orig shard_axes dim new_chunked_value extra_sharding
      else
        rewriteLoop orig shape extra_sharding shard_axes (dim + 1) todo

/-- Embedding of `CrossMeshCommunicator._rewrite_allgather_specs`.  The
`global_config.use_scatter_gather` flag, the destination mesh device/host
counts and the shape of `var.aval` are passed explicitly. -/
def rewrite_allgather_specs (use_scatter_gather : Bool)
    (dst_sharding_spec : ShardingSpec)
    (num_devices num_hosts : Nat) (aval_shape : List Nat) :
    Except PyErr (ShardingSpec × Option (Nat × Nat × Nat)) := do
  if !use_scatter_gather then
    return (dst_sharding_spec, none)
  let tot_sharding ← totSharding dst_sharding_spec.sharding
  let cd2td := chunkDimToTensorDim dst_sharding_spec.sharding 0
  if tot_sharding = num_devices then
    return (dst_sharding_spec, none)
  let _ ← pyAssert (num_devices % tot_sharding = 0) ""
  let extra_sharding ← pyDiv num_devices tot_sharding
  let shard_axes ← buildShardAxes cd2td dst_sharding_spec.mesh_mapping 0 []
  let first_mesh_dim ← pyGet dst_sharding_spec.mesh_mapping 0
  let earlyRet ← (match first_mesh_dim with
    | MeshMapEntry.Replicated _ => pure true
    | MeshMapEntry.ShardedAxis a => do
        let td ← pyGet cd2td a
        let ds ← pyGet dst_sharding_spec.sharding td
        let v ← dim_spec_chunk_value ds
        pure (decide (v < num_hosts)))
  if earlyRet ∧ num_hosts > 1 then
    return (dst_sharding_spec, none)
  let _ ← pyAssert (shard_axes.length < 2) "Only support 1D and 2D Mesh"
  rewriteLoop dst_sharding_spec aval_shape extra_sharding shard_axes 0
    dst_sharding_spec.sharding.length

/-- The `dst_mesh_shape` list comprehension of
`_allgather_receiver_step_and_offset`: one entry per mesh-mapping entry,
the chunk value of the mapped tensor dimension for a `ShardedAxis` and `1`
for a `Replicated`. -/
def dstMeshShape (sharding : List DimSpec) (chunked_axes : List Nat) :
    List MeshMapEntry → Except PyErr (List Nat)
  | [] => Except.ok []
  | mm :: rest => do
      let v ← (match mm with
        | MeshMapEntry.ShardedAxis a => do
            let td ← pyGet chunked_axes a
            let ds ← pyGet sharding td
            match ds with
            | DimSpec.Chunked cs => pyGet cs 0
            | DimSpec.NoSharding => Except.error PyErr.indexError
        | MeshMapEntry.Replicated _ => Except.ok 1)
      let vs ← dstMeshShape sharding chunked_axes rest
      pure (v :: vs)

/-- Embedding of
`SymbolicReshardingTask._allgather_receiver_step_and_offset`.  The receiver
is given through its collective-group rank `(host_idx, device_idx)`; the
allgather slice contributes `mesh_axis` and `extra_sharding`. -/
def allgather_receiver_step_and_offset (mesh_axis extra_sharding : Nat)
    (host_idx device_idx src_num_hosts dst_num_devices_per_host : Nat)
    (dst_spec : ShardingSpec) :
    Except PyErr (Nat × Nat × Nat × List Nat) := do
  let host_idx2 := if host_idx ≥ src_num_hosts
    then host_idx - src_num_hosts else host_idx
  let flatten_idx := host_idx2 * dst_num_devices_per_host + device_idx
  let chunked_axes := chunkDimToTensorDim dst_spec.sharding 0
  let dst_mesh_shape ← dstMeshShape dst_spec.sharding chunked_axes
    dst_spec.mesh_mapping
  let _ ← pyAssert (dst_mesh_shape.length < 3) "Only support 1D and 2D mesh"
  if mesh_axis = 0 then do
    let step ← pyGet dst_mesh_shape 1
    let d1 ← pyGet dst_mesh_shape 1
    let q ← pyDiv flatten_idx d1
    let offset ← pyMod q extra_sharding
    let q2 ← pyDiv q extra_sharding
    let m1 ← pyMod flatten_idx d1
    pure (step, offset, q2 * d1 + m1, dst_mesh_shape)
  else do
    let _ ← pyAssert (mesh_axis = 1) ""
    let d1 ← pyGet dst_mesh_shape 1
    let m1 ← pyMod flatten_idx d1
    let offset ← pyMod m1 extra_sharding
    let g ← pyDiv flatten_idx extra_sharding
    pure (1, offset, g, dst_mesh_shape)

/-- C8: with `use_scatter_gather` disabled, `_rewrite_allgather_specs`
returns the input destination sharding spec itself, unchanged, with an
allgather slice of `None` — for every spec, mesh and variable shape. -/
theorem C8_no_rewrite_when_disabled (dst_sharding_spec : ShardingSpec)
    (num_devices num_hosts : Nat) (aval_shape : List Nat) :
    rewrite_allgather_specs false dst_sharding_spec num_devices num_hosts
      aval_shape = Except.ok (dst_sharding_spec, none) := rfl

theorem except_bind_ok {ε α β : Type} (x : Except ε α) (f : α → Except ε β)
    (b : β) :
    (x >>= f) = Except.ok b ↔ ∃ a, x = Except.ok a ∧ f a = Except.ok b := by
  cases x with
  | error e => simp [Bind.bind, Except.bind]
  | ok a => simp [Bind.bind, Except.bind]

theorem dstMeshShape_length (sharding : List DimSpec) (ca : List Nat) :
    ∀ (mm : List MeshMapEntry) (dms : List Nat),
      dstMeshShape sharding ca mm = Except.ok dms →
        dms.length = mm.length := by
  intro mm
  induction mm with
  | nil =>
      intro dms h
      unfold dstMeshShape at h
      simp only [Except.ok.injEq] at h
      rw [← h]
      rfl
  | cons m rest ih =>
      intro dms h
      unfold dstMeshShape at h
      rw [except_bind_ok] at h
      rcases h with ⟨v, _, h2⟩
      rw [except_bind_ok] at h2
      rcases h2 with ⟨vs, hvs, h3⟩
      simp only [pure, Except.pure, Except.ok.injEq] at h3
      rw [← h3]
      simp [ih vs hvs]

/-- C7 (amended): `_allgather_receiver_step_and_offset` fails at its mesh
dimension assertion for every destination sharding whose mesh mapping has
three or more entries (whenever its mesh-shape computation itself succeeds);
it completes without failure for 2-entry mesh mappings when the allgather
mesh axis is 0 or 1, the second mesh dimension is nonzero, and the
replication factor is nonzero; and for 1-entry mesh mappings it fails with an
IndexError (not an assertion) for both allgather mesh axes.
(`_rewrite_allgather_specs` does not reject all higher-dimensional mesh
shapes; see the counterexample.) -/
theorem C7_allgather_mesh_dim :
    (∀ (mesh_axis extra hi di snh dph : Nat) (spec : ShardingSpec)
        (dms : List Nat),
        dstMeshShape spec.sharding (chunkDimToTensorDim spec.sharding 0)
          spec.mesh_mapping = Except.ok dms →
        3 ≤ spec.mesh_mapping.length →
        allgather_receiver_step_and_offset mesh_axis extra hi di snh dph
          spec =
          Except.error (PyErr.assertError "Only support 1D and 2D mesh")) ∧
    (∀ (mesh_axis extra hi di snh dph : Nat) (spec : ShardingSpec)
        (dms : List Nat),
        dstMeshShape spec.sharding (chunkDimToTensorDim spec.sharding 0)
          spec.mesh_mapping = Except.ok dms →
        spec.mesh_mapping.length = 2 →
        (mesh_axis = 0 ∨ mesh_axis = 1) → extra ≠ 0 → dms.getD 1 0 ≠ 0 →
        ∃ r, allgather_receiver_step_and_offset mesh_axis extra hi di snh dph
          spec = Except.ok r) ∧
    (∀ (mesh_axis extra hi di snh dph : Nat) (spec : ShardingSpec)
        (dms : List Nat),
        dstMeshShape spec.sharding (chunkDimToTensorDim spec.sharding 0)
          spec.mesh_mapping = Except.ok dms →
        spec.mesh_mapping.length = 1 →
        (mesh_axis = 0 ∨ mesh_axis = 1) →
        allgather_receiver_step_and_offset mesh_axis extra hi di snh dph
          spec = Except.error PyErr.indexError) := by
  refine ⟨?_, ?_, ?_⟩
  · intro ma es hi di snh dph spec dms hdms hlen
    have hl := dstMeshShape_length _ _ _ _ hdms
    have hf : decide (dms.length < 3) = false := by
      simp only [decide_eq_false_iff_not, not_lt]
      omega
    simp only [allgather_receiver_step_and_offset]
    rw [hdms]
    simp [Bind.bind, Except.bind, pyAssert, hf]
  · intro ma es hi di snh dph spec dms hdms hlen hma hes hd1
    have hl := dstMeshShape_length _ _ _ _ hdms
    rw [hlen] at hl
    rcases dms with _ | ⟨a, t⟩
    · simp at hl
    rcases t with _ | ⟨b, t2⟩
    · simp at hl
    rcases t2 with _ | ⟨c, t3⟩
    · have hb : b ≠ 0 := by simpa [List.getD] using hd1
      rcases hma with rfl | rfl
      · refine ⟨(b,
          ((if snh ≤ hi then hi - snh else hi) * dph + di) / b % es,
          ((if snh ≤ hi then hi - snh else hi) * dph + di) / b / es * b +
            ((if snh ≤ hi then hi - snh else hi) * dph + di) % b,
          [a, b]), ?_⟩
        simp only [allgather_receiver_step_and_offset]
        rw [hdms]
        simp [Bind.bind, Except.bind, pyAssert, pyGet, pyDiv, pyMod, hb, hes,
          pure, Except.pure]
      · refine ⟨(1,
          ((if snh ≤ hi then hi - snh else hi) * dph + di) % b % es,
          ((if snh ≤ hi then hi - snh else hi) * dph + di) / es,
          [a, b]), ?_⟩
        simp only [allgather_receiver_step_and_offset]
        rw [hdms]
        simp [Bind.bind, Except.bind, pyAssert, pyGet, pyDiv, pyMod, hb, hes,
          pure, Except.pure]
    · simp at hl
  · intro ma es hi di snh dph spec dms hdms hlen hma
    have hl := dstMeshShape_length _ _ _ _ hdms
    rw [hlen] at hl
    rcases dms with _ | ⟨a, t⟩
    · simp at hl
    rcases t with _ | ⟨b, t2⟩
    · rcases hma with rfl | rfl
      · simp only [allgather_receiver_step_and_offset]
        rw [hdms]
        simp [Bind.bind, Except.bind, pyAssert, pyGet]
      · simp only [allgather_receiver_step_and_offset]
        rw [hdms]
        simp [Bind.bind, Except.bind, pyAssert, pyGet]
    · simp at hl

/-- Fully sharded 3-D destination sharding spec: three chunked tensor axes
mapped to a 3-entry mesh mapping. -/
def cex3dSpec : ShardingSpec :=
  ⟨[DimSpec.Chunked [2], DimSpec.Chunked [2], DimSpec.Chunked [2]],
    [MeshMapEntry.ShardedAxis 0, MeshMapEntry.ShardedAxis 1,
      MeshMapEntry.ShardedAxis 2]⟩

/-- C7 counterexample: a destination sharding with a 3-entry mesh mapping on
which `_rewrite_allgather_specs` (scatter-gather enabled, 8-device mesh)
returns normally instead of failing at an assertion: the total sharding
already equals the device count, so the early return fires. -/
theorem C7_allgather_mesh_dim_counterexample :
    3 ≤ cex3dSpec.mesh_mapping.length ∧
    rewrite_allgather_specs true cex3dSpec 8 2 [8, 8, 8] =
      Except.ok (cex3dSpec, none) :=
  ⟨by decide, rfl⟩

/-- Witness for the amended C7 theorem: the assertion fires on the concrete
3-D spec when `_allgather_receiver_step_and_offset` is reached. -/
theorem C7_allgather_mesh_dim_witness :
    dstMeshShape cex3dSpec.sharding
        (chunkDimToTensorDim cex3dSpec.sharding 0) cex3dSpec.mesh_mapping =
      Except.ok [2, 2, 2] ∧
    3 ≤ cex3dSpec.mesh_mapping.length ∧
    allgather_receiver_step_and_offset 0 2 0 0 1 1 cex3dSpec =
      Except.error (PyErr.assertError "Only support 1D and 2D mesh") :=
  ⟨rfl, by decide,
    C7_allgather_mesh_dim.1 0 2 0 0 1 1 cex3dSpec [2, 2, 2] rfl
      (by decide)⟩

/-! ## `SymbolicReshardingTask._compile_send_recv_tasks`

Parameters of the embedding: a worker type `W`; the collective-group lookup
tables as functions (`wm` = `device_str_to_mesh_worker_map`,
`rm` = `device_str_to_rank_map`, `dm` = `device_str_to_device_id_map`); the
post-allgather index rewrite `_indices_in_dst_post_allgather` as a function
`postAG indices receiver` (it only reads immutable task state); offsets and
index lists as abstract types `ο` and `ι`.

One destination tile contributes `rows` — one entry per destination replica,
pairing the receiver with its row `senders = [spec_plan[replica_index][j]
for j, _ in enumerate(src_tiles)]` of the strategy plan — and `slices` — the
per-source-tile-slice data `(src_tiles[j].offset, indices_in_dst_tiles[j])`.
The inner loop pairs `senders` positionally with `slices`, exactly as the
code indexes both by `sender_idx` (the lists have equal length by
construction of `senders`).

The worker-keyed task dicts are modelled as total functions
`W → List _` (initialised to `[]` for every worker, as in `__init__`). -/

structure ReshardingTileSpec (α : Type) where
  payload : α
  rank : Nat
  gpu_idx : Nat

structure ReshardingRecvSpec (ι : Type) where
  device_id : Nat
  tile_shape : List Nat
  dtype : Nat
  tile_specs : List (ReshardingTileSpec ι)

structure TileCompileInput (ο ι : Type) where
  rows : List (String × List String)
  slices : List (ο × ι)
  tile_shape : List Nat

structure CompileState (W ο ι : Type) where
  sender_tasks : W → List (ReshardingTileSpec ο)
  receiver_tasks : W → List (ReshardingRecvSpec ι)
  sender_uuid_plan : List String
  receiver_uuid_plan : List String

/-- Inner loop over `enumerate(senders)`: append one sender-task entry on the
sender worker and build up this receiver task entry tile-spec list. -/
def innerSliceLoop {W ο ι : Type} [DecidableEq W] (wm : String → W)
    (rm : String → Nat × Nat) (postAG : ι → String → ι) (receiver : String)
    (rrank rgpu : Nat) :
    CompileState W ο ι → List (ReshardingTileSpec ι) →
      List (String × ο × ι) →
      CompileState W ο ι × List (ReshardingTileSpec ι)
  | st, recvAcc, [] => (st, recvAcc)
  | st, recvAcc, t :: rest =>
      innerSliceLoop wm rm postAG receiver rrank rgpu
        { st with
          sender_tasks := fun w =>
            if w = wm t.1 then
              st.sender_tasks w ++ [⟨t.2.1, rrank, rgpu⟩]
            else st.sender_tasks w,
          sender_uuid_plan := st.sender_uuid_plan ++ [t.1] }
        (recvAcc ++
          [⟨postAG t.2.2 receiver, (rm t.1).1, (rm t.1).2⟩])
        rest

/-- Loop over `enumerate(dst_tile.replica_device_strs)`: run the inner loop
for one receiver, then append the assembled `ReshardingRecvSpec` on the
receiver worker. -/
def replicaLoop {W ο ι : Type} [DecidableEq W] (wm : String → W)
    (rm : String → Nat × Nat) (dm : String → Nat) (postAG : ι → String → ι)
    (dtype : Nat) (slices : List (ο × ι)) (tile_shape : List Nat) :
    CompileState W ο ι → List (String × List String) → CompileState W ο ι
  | st, [] => st
  | st, row :: rest =>
      let st0 := { st with
        receiver_uuid_plan := st.receiver_uuid_plan ++ [row.1] }
      let inner := innerSliceLoop wm rm postAG row.1 (rm row.1).1 (rm row.1).2
        st0 [] (row.2.zip slices)
      replicaLoop wm rm dm postAG dtype slices tile_shape
        { inner.1 with
          receiver_tasks := fun w =>
            if w = wm row.1 then
              inner.1.receiver_tasks w ++
                [⟨dm row.1, tile_shape, dtype, inner.2⟩]
            else inner.1.receiver_tasks w }
        rest

/-- Embedding of `_compile_send_recv_tasks`: the loop over
`enumerate(self.task_spec.dst_tile_to_src_tiles_map)`. -/
def compile_send_recv_tasks {W ο ι : Type} [DecidableEq W] (wm : String → W)
    (rm : String → Nat × Nat) (dm : String → Nat) (postAG : ι → String → ι)
    (dtype : Nat) :
    CompileState W ο ι → List (TileCompileInput ο ι) → CompileState W ο ι
  | st, [] => st
  | st, tile :: rest =>
      compile_send_recv_tasks wm rm dm postAG dtype
        (replicaLoop wm rm dm postAG dtype tile.slices tile.tile_shape st
          tile.rows)
        rest

/-- The initial compile state (`__init__`: every worker starts with an empty
task list). -/
def initCompileState (W ο ι : Type) : CompileState W ο ι :=
  ⟨fun _ => [], fun _ => [], [], []⟩

/-! ### The transfer-event view (specification side)

One transfer event per (tile, replica, slice) loop position, in loop order:
`(sender, receiver, offset, indices)`. -/

/-- Events of one destination tile, in loop order. -/
def tileEvents {ο ι : Type} (tile : TileCompileInput ο ι) :
    List (String × String × ο × ι) :=
  tile.rows.flatMap (fun row =>
    (row.2.zip tile.slices).map (fun t => (t.1, row.1, t.2.1, t.2.2)))

/-- All transfer events of a compilation, in loop order. -/
def allEvents {ο ι : Type} (tiles : List (TileCompileInput ο ι)) :
    List (String × String × ο × ι) :=
  tiles.flatMap tileEvents

/-- The sender-task entry an event generates. -/
def sendEntryOf {ο ι : Type} (rm : String → Nat × Nat)
    (e : String × String × ο × ι) : ReshardingTileSpec ο :=
  ⟨e.2.2.1, (rm e.2.1).1, (rm e.2.1).2⟩

/-- The receive tile-spec entry an event generates. -/
def recvEntryOf {ο ι : Type} (rm : String → Nat × Nat)
    (postAG : ι → String → ι) (e : String × String × ο × ι) :
    ReshardingTileSpec ι :=
  ⟨postAG e.2.2.2 e.2.1, (rm e.1).1, (rm e.1).2⟩

theorem innerSliceLoop_spec {W ο ι : Type} [DecidableEq W] (wm : String → W)
    (rm : String → Nat × Nat) (postAG : ι → String → ι) (receiver : String)
    (rrank rgpu : Nat) :
    ∀ (triples : List (String × ο × ι)) (st : CompileState W ο ι)
      (recvAcc : List (ReshardingTileSpec ι)),
      (∀ w, (innerSliceLoop wm rm postAG receiver rrank rgpu st recvAcc
          triples).1.sender_tasks w =
        st.sender_tasks w ++
          (triples.filter (fun t => wm t.1 = w)).map
            (fun t => ⟨t.2.1, rrank, rgpu⟩)) ∧
      (∀ w, (innerSliceLoop wm rm postAG receiver rrank rgpu st recvAcc
          triples).1.receiver_tasks w = st.receiver_tasks w) ∧
      (innerSliceLoop wm rm postAG receiver rrank rgpu st recvAcc
          triples).1.receiver_uuid_plan = st.receiver_uuid_plan ∧
      (innerSliceLoop wm rm postAG receiver rrank rgpu st recvAcc
          triples).1.sender_uuid_plan =
        st.sender_uuid_plan ++ triples.map (fun t => t.1) ∧
      (innerSliceLoop wm rm postAG receiver rrank rgpu st recvAcc
          triples).2 =
        recvAcc ++ triples.map
          (fun t => ⟨postAG t.2.2 receiver, (rm t.1).1, (rm t.1).2⟩) := by
  intro triples
  induction triples with
  | nil =>
      intro st recvAcc
      refine ⟨fun w => ?_, fun w => ?_, ?_, ?_, ?_⟩ <;>
        simp [innerSliceLoop]
  | cons t rest ih =>
      intro st recvAcc
      have hstep := ih
        { st with
          sender_tasks := fun w =>
            if w = wm t.1 then
              st.sender_tasks w ++ [⟨t.2.1, rrank, rgpu⟩]
            else st.sender_tasks w,
          sender_uuid_plan := st.sender_uuid_plan ++ [t.1] }
        (recvAcc ++ [⟨postAG t.2.2 receiver, (rm t.1).1, (rm t.1).2⟩])
      refine ⟨fun w => ?_, fun w => ?_, ?_, ?_, ?_⟩
      · rw [show innerSliceLoop wm rm postAG receiver rrank rgpu st recvAcc
            (t :: rest) = innerSliceLoop wm rm postAG receiver rrank rgpu
            { st with
              sender_tasks := fun w =>
                if w = wm t.1 then
                  st.sender_tasks w ++ [⟨t.2.1, rrank, rgpu⟩]
                else st.sender_tasks w,
              sender_uuid_plan := st.sender_uuid_plan ++ [t.1] }
            (recvAcc ++ [⟨postAG t.2.2 receiver, (rm t.1).1, (rm t.1).2⟩])
            rest from rfl]
        rw [hstep.1 w]
        by_cases hw : wm t.1 = w
        · simp [List.filter_cons, hw]
        · have hw2 : ¬ (w = wm t.1) := fun h => hw h.symm
          simp [List.filter_cons, hw, hw2]
      · rw [show innerSliceLoop wm rm postAG receiver rrank rgpu st recvAcc
            (t :: rest) = innerSliceLoop wm rm postAG receiver rrank rgpu
            { st with
              sender_tasks := fun w =>
                if w = wm t.1 then
                  st.sender_tasks w ++ [⟨t.2.1, rrank, rgpu⟩]
                else st.sender_tasks w,
              sender_uuid_plan := st.sender_uuid_plan ++ [t.1] }
            (recvAcc ++ [⟨postAG t.2.2 receiver, (rm t.1).1, (rm t.1).2⟩])
            rest from rfl]
        exact hstep.2.1 w
      · exact hstep.2.2.1
      · rw [show innerSliceLoop wm rm postAG receiver rrank rgpu st recvAcc
            (t :: rest) = innerSliceLoop wm rm postAG receiver rrank rgpu
            { st with
              sender_tasks := fun w =>
                if w = wm t.1 then
                  st.sender_tasks w ++ [⟨t.2.1, rrank, rgpu⟩]
                else st.sender_tasks w,
              sender_uuid_plan := st.sender_uuid_plan ++ [t.1] }
            (recvAcc ++ [⟨postAG t.2.2 receiver, (rm t.1).1, (rm t.1).2⟩])
            rest from rfl]
        rw [hstep.2.2.2.1]
        simp
      · rw [show innerSliceLoop wm rm postAG receiver rrank rgpu st recvAcc
            (t :: rest) = innerSliceLoop wm rm postAG receiver rrank rgpu
            { st with
              sender_tasks := fun w =>
                if w = wm t.1 then
                  st.sender_tasks w ++ [⟨t.2.1, rrank, rgpu⟩]
                else st.sender_tasks w,
              sender_uuid_plan := st.sender_uuid_plan ++ [t.1] }
            (recvAcc ++ [⟨postAG t.2.2 receiver, (rm t.1).1, (rm t.1).2⟩])
            rest from rfl]
        rw [hstep.2.2.2.2]
        simp

theorem replicaLoop_spec {W ο ι : Type} [DecidableEq W] (wm : String → W)
    (rm : String → Nat × Nat) (dm : String → Nat) (postAG : ι → String → ι)
    (dtype : Nat) (slices : List (ο × ι)) (shape : List Nat) :
    ∀ (rows : List (String × List String)) (st : CompileState W ο ι),
      (∀ w, (replicaLoop wm rm dm postAG dtype slices shape st
          rows).sender_tasks w =
        st.sender_tasks w ++
          ((rows.flatMap (fun row => (row.2.zip slices).map
              (fun t => (t.1, row.1, t.2.1, t.2.2)))).filter
            (fun e => wm e.1 = w)).map (sendEntryOf rm)) ∧
      (∀ w, (replicaLoop wm rm dm postAG dtype slices shape st
          rows).receiver_tasks w =
        st.receiver_tasks w ++
          (rows.filter (fun row => wm row.1 = w)).map (fun row =>
            ⟨dm row.1, shape, dtype, (row.2.zip slices).map
              (fun t => ⟨postAG t.2.2 row.1, (rm t.1).1, (rm t.1).2⟩)⟩)) ∧
      (replicaLoop wm rm dm postAG dtype slices shape st
          rows).sender_uuid_plan =
        st.sender_uuid_plan ++
          (rows.flatMap (fun row => (row.2.zip slices).map
            (fun t => (t.1, row.1, t.2.1, t.2.2)))).map (fun e => e.1) ∧
      (replicaLoop wm rm dm postAG dtype slices shape st
          rows).receiver_uuid_plan =
        st.receiver_uuid_plan ++ rows.map (fun row => row.1) := by
  intro rows
  induction rows with
  | nil =>
      intro st
      refine ⟨fun w => by simp [replicaLoop], fun w => by simp [replicaLoop],
        by simp [replicaLoop], by simp [replicaLoop]⟩
  | cons row rest ih =>
      intro st
      have hinner := innerSliceLoop_spec wm rm postAG row.1 (rm row.1).1
        (rm row.1).2 (row.2.zip slices)
        { st with receiver_uuid_plan := st.receiver_uuid_plan ++ [row.1] } []
      set inner := innerSliceLoop wm rm postAG row.1 (rm row.1).1
        (rm row.1).2
        { st with receiver_uuid_plan := st.receiver_uuid_plan ++ [row.1] } []
        (row.2.zip slices) with hinnerdef
      set st2 : CompileState W ο ι := { inner.1 with
        receiver_tasks := fun w =>
          if w = wm row.1 then
            inner.1.receiver_tasks w ++ [⟨dm row.1, shape, dtype, inner.2⟩]
          else inner.1.receiver_tasks w } with hst2
      have hunfold : replicaLoop wm rm dm postAG dtype slices shape st
          (row :: rest) =
          replicaLoop wm rm dm postAG dtype slices shape st2 rest := rfl
      have hrest := ih st2
      refine ⟨fun w => ?_, fun w => ?_, ?_, ?_⟩
      · rw [hunfold, hrest.1 w]
        have h1 : st2.sender_tasks w = inner.1.sender_tasks w := rfl
        rw [h1, hinner.1 w]
        simp only [List.flatMap_cons, List.filter_append, List.map_append,
          List.append_assoc]
        congr 2
        rw [List.filter_map, List.map_map]
        rfl
      · rw [hunfold, hrest.2.1 w]
        have h1 : st2.receiver_tasks w =
            if w = wm row.1 then
              inner.1.receiver_tasks w ++ [⟨dm row.1, shape, dtype, inner.2⟩]
            else inner.1.receiver_tasks w := rfl
        rw [h1, hinner.2.1 w]
        have h0 : ({ st with receiver_uuid_plan :=
            st.receiver_uuid_plan ++ [row.1] } :
            CompileState W ο ι).receiver_tasks w = st.receiver_tasks w := rfl
        rw [h0]
        have hrec : inner.2 = (row.2.zip slices).map
            (fun t => ⟨postAG t.2.2 row.1, (rm t.1).1, (rm t.1).2⟩) := by
          rw [hinner.2.2.2.2]
          simp
        by_cases hw : wm row.1 = w
        · rw [if_pos hw.symm]
          simp only [List.filter_cons, hw, decide_true_eq_true,
            List.map_cons, List.append_assoc]
          rw [hrec]
          simp [hw]
        · have hw2 : ¬ (w = wm row.1) := fun h => hw h.symm
          rw [if_neg hw2]
          simp [List.filter_cons, hw]
      · rw [hunfold, hrest.2.2.1]
        have h1 : st2.sender_uuid_plan = inner.1.sender_uuid_plan := rfl
        rw [h1, hinner.2.2.2.1]
        have h0 : ({ st with receiver_uuid_plan :=
            st.receiver_uuid_plan ++ [row.1] } :
            CompileState W ο ι).sender_uuid_plan = st.sender_uuid_plan := rfl
        rw [h0]
        simp only [List.flatMap_cons, List.map_append, List.append_assoc,
          List.map_map]
        rfl
      · rw [hunfold, hrest.2.2.2]
        have h1 : st2.receiver_uuid_plan = inner.1.receiver_uuid_plan := rfl
        rw [h1, hinner.2.2.1]
        have h0 : ({ st with receiver_uuid_plan :=
            st.receiver_uuid_plan ++ [row.1] } :
            CompileState W ο ι).receiver_uuid_plan =
            st.receiver_uuid_plan ++ [row.1] := rfl
        rw [h0]
        simp

theorem compile_send_recv_tasks_spec {W ο ι : Type} [DecidableEq W]
    (wm : String → W) (rm : String → Nat × Nat) (dm : String → Nat)
    (postAG : ι → String → ι) (dtype : Nat) :
    ∀ (tiles : List (TileCompileInput ο ι)) (st : CompileState W ο ι),
      (∀ w, (compile_send_recv_tasks wm rm dm postAG dtype st
          tiles).sender_tasks w =
        st.sender_tasks w ++
          ((allEvents tiles).filter (fun e => wm e.1 = w)).map
            (sendEntryOf rm)) ∧
      (∀ w, (compile_send_recv_tasks wm rm dm postAG dtype st
          tiles).receiver_tasks w =
        st.receiver_tasks w ++
          tiles.flatMap (fun tile =>
            (tile.rows.filter (fun row => wm row.1 = w)).map (fun row =>
              ⟨dm row.1, tile.tile_shape, dtype,
                (row.2.zip tile.slices).map (fun t =>
                  ⟨postAG t.2.2 row.1, (rm t.1).1, (rm t.1).2⟩)⟩))) := by
  intro tiles
  induction tiles with
  | nil =>
      intro st
      refine ⟨fun w => by simp [compile_send_recv_tasks, allEvents],
        fun w => by simp [compile_send_recv_tasks]⟩
  | cons tile rest ih =>
      intro st
      have hrep := replicaLoop_spec wm rm dm postAG dtype tile.slices
        tile.tile_shape tile.rows st
      have hunfold : compile_send_recv_tasks wm rm dm postAG dtype st
          (tile :: rest) =
          compile_send_recv_tasks wm rm dm postAG dtype
            (replicaLoop wm rm dm postAG dtype tile.slices tile.tile_shape
              st tile.rows) rest := rfl
      have hrest := ih (replicaLoop wm rm dm postAG dtype tile.slices
        tile.tile_shape st tile.rows)
      constructor
      · intro w
        rw [hunfold, hrest.1 w, hrep.1 w]
        simp only [allEvents, List.flatMap_cons, List.filter_append,
          List.map_append, List.append_assoc]
        rfl
      · intro w
        rw [hunfold, hrest.2 w, hrep.2.1 w]
        simp only [List.flatMap_cons, List.append_assoc]

/-- Filtering the events of one tile by receiver worker keeps whole rows:
every event of a row has that row\u2019s receiver. -/
theorem tileEvents_filter_receiver {W ο ι : Type} [DecidableEq W]
    (wm : String → W) (w : W) (slices : List (ο × ι)) :
    ∀ (rows : List (String × List String)),
      ((rows.flatMap (fun row => (row.2.zip slices).map
          (fun t => (t.1, row.1, t.2.1, t.2.2)))).filter
        (fun e => wm e.2.1 = w)) =
      ((rows.filter (fun row => wm row.1 = w)).flatMap
        (fun row => (row.2.zip slices).map
          (fun t => (t.1, row.1, t.2.1, t.2.2)))) := by
  intro rows
  induction rows with
  | nil => simp
  | cons row rest ih =>
      simp only [List.flatMap_cons, List.filter_append, List.filter_cons]
      by_cases hw : wm row.1 = w
      · simp only [hw, decide_true_eq_true, List.flatMap_cons, ih]
        congr 1
        rw [List.filter_map]
        have : ((fun e : String × String × ο × ι => decide (wm e.2.1 = w)) ∘
            (fun t : String × ο × ι => (t.1, row.1, t.2.1, t.2.2))) =
            fun _ => true := by
          funext t
          simp [hw]
        rw [this, List.filter_true]
      · have hw2 : decide (wm row.1 = w) = false := by simp [hw]
        simp only [hw2, if_false, ih]
        have hemp : ((row.2.zip slices).map
            (fun t => (t.1, row.1, t.2.1, t.2.2))).filter
            (fun e : String × String × ο × ι => wm e.2.1 = w) = [] := by
          rw [List.filter_map]
          have : ((fun e : String × String × ο × ι => decide (wm e.2.1 = w)) ∘
              (fun t : String × ο × ι => (t.1, row.1, t.2.1, t.2.2))) =
              fun _ => false := by
            funext t
            simp [hw]
          rw [this, List.filter_false]
          rfl
        rw [hemp, List.nil_append]
        simp

/-- C5: after `_compile_send_recv_tasks`, (1) each worker sender-task list
is exactly the sender entries of the transfer events whose sender lives on
that worker, in loop order; (2) the concatenation of the tile specs of each
worker receive tasks is exactly the receive entries of the events whose
receiver lives on that worker, in loop order — together a 1:1 pairing of
sender entries and receive tile specs through the common event list, each
side carrying the opposite rank and gpu index; and (3) for any sender
worker and receiver worker, the sender entries addressed to that receiver
worker and the receive tile specs naming that sender worker have equal
length and at every index are generated by one and the same transfer event
(same relative order on both sides).  `r2w` maps a collective-group host
rank to its worker, coherently with the worker map (`hcoh`). -/
theorem C5_send_recv_pairing {W ο ι : Type} [DecidableEq W] (wm : String → W)
    (rm : String → Nat × Nat) (dm : String → Nat) (postAG : ι → String → ι)
    (dtype : Nat) (r2w : Nat → W) (hcoh : ∀ d, wm d = r2w (rm d).1)
    (tiles : List (TileCompileInput ο ι)) :
    (∀ w, (compile_send_recv_tasks wm rm dm postAG dtype
        (initCompileState W ο ι) tiles).sender_tasks w =
      ((allEvents tiles).filter (fun e => wm e.1 = w)).map
        (sendEntryOf rm)) ∧
    (∀ w, ((compile_send_recv_tasks wm rm dm postAG dtype
        (initCompileState W ο ι) tiles).receiver_tasks w).flatMap
        (fun r => r.tile_specs) =
      ((allEvents tiles).filter (fun e => wm e.2.1 = w)).map
        (recvEntryOf rm postAG)) ∧
    (∀ sw rw : W,
      (((compile_send_recv_tasks wm rm dm postAG dtype
          (initCompileState W ο ι) tiles).sender_tasks sw).filter
          (fun e => r2w e.rank = rw)).length =
        ((((compile_send_recv_tasks wm rm dm postAG dtype
            (initCompileState W ο ι) tiles).receiver_tasks rw).flatMap
            (fun r => r.tile_specs)).filter
          (fun t => r2w t.rank = sw)).length ∧
      (∀ k, k < (((compile_send_recv_tasks wm rm dm postAG dtype
            (initCompileState W ο ι) tiles).sender_tasks sw).filter
            (fun e => r2w e.rank = rw)).length →
        ∃ ev, ev ∈ allEvents tiles ∧ wm ev.1 = sw ∧ wm ev.2.1 = rw ∧
          (((compile_send_recv_tasks wm rm dm postAG dtype
              (initCompileState W ο ι) tiles).sender_tasks sw).filter
              (fun e => r2w e.rank = rw))[k]? = some (sendEntryOf rm ev) ∧
          ((((compile_send_recv_tasks wm rm dm postAG dtype
              (initCompileState W ο ι) tiles).receiver_tasks rw).flatMap
              (fun r => r.tile_specs)).filter
            (fun t => r2w t.rank = sw))[k]? =
            some (recvEntryOf rm postAG ev))) := by
  have hspec := compile_send_recv_tasks_spec wm rm dm postAG dtype tiles
    (initCompileState W ο ι)
  have hsend : ∀ w, (compile_send_recv_tasks wm rm dm postAG dtype
      (initCompileState W ο ι) tiles).sender_tasks w =
      ((allEvents tiles).filter (fun e => wm e.1 = w)).map
        (sendEntryOf rm) := by
    intro w
    rw [hspec.1 w]
    rfl
  have hrecv : ∀ w, ((compile_send_recv_tasks wm rm dm postAG dtype
      (initCompileState W ο ι) tiles).receiver_tasks w).flatMap
      (fun r => r.tile_specs) =
      ((allEvents tiles).filter (fun e => wm e.2.1 = w)).map
        (recvEntryOf rm postAG) := by
    intro w
    rw [hspec.2 w]
    have h0 : (initCompileState W ο ι).receiver_tasks w = [] := rfl
    rw [h0, List.nil_append, List.flatMap_assoc]
    unfold allEvents
    rw [List.filter_flatMap, List.map_flatMap]
    congr 1
    funext tile
    unfold tileEvents
    rw [tileEvents_filter_receiver wm w tile.slices tile.rows,
      List.flatMap_map, List.map_flatMap]
    congr 1
    funext row
    rw [List.map_map]
    rfl
  refine ⟨hsend, hrecv, ?_⟩
  intro sw rw
  have hS : (((compile_send_recv_tasks wm rm dm postAG dtype
      (initCompileState W ο ι) tiles).sender_tasks sw).filter
      (fun e => r2w e.rank = rw)) =
      (((allEvents tiles).filter (fun e => wm e.1 = sw)).filter
        (fun e => wm e.2.1 = rw)).map (sendEntryOf rm) := by
    rw [hsend sw, List.filter_map]
    congr 1
    apply List.filter_congr
    intro x _
    simp [sendEntryOf, Function.comp, hcoh x.2.1]
  have hR : ((((compile_send_recv_tasks wm rm dm postAG dtype
      (initCompileState W ο ι) tiles).receiver_tasks rw).flatMap
      (fun r => r.tile_specs)).filter (fun t => r2w t.rank = sw)) =
      (((allEvents tiles).filter (fun e => wm e.2.1 = rw)).filter
        (fun e => wm e.1 = sw)).map (recvEntryOf rm postAG) := by
    rw [hrecv rw, List.filter_map]
    congr 1
    apply List.filter_congr
    intro x _
    simp [recvEntryOf, Function.comp, hcoh x.1]
  have hE : (((allEvents tiles).filter (fun e => wm e.2.1 = rw)).filter
      (fun e => wm e.1 = sw)) =
      (((allEvents tiles).filter (fun e => wm e.1 = sw)).filter
        (fun e => wm e.2.1 = rw)) := by
    rw [List.filter_filter, List.filter_filter]
    apply List.filter_congr
    intro x _
    rw [Bool.and_comm]
  rw [hR, hE]
  constructor
  · rw [hS, List.length_map, List.length_map]
  · intro k hk
    rw [hS, List.length_map] at hk
    refine ⟨(((allEvents tiles).filter (fun e => wm e.1 = sw)).filter
      (fun e => wm e.2.1 = rw))[k], ?_, ?_, ?_, ?_, ?_⟩
    · have h1 := List.getElem_mem hk
      have h2 := (List.mem_filter.mp h1).1
      exact (List.mem_filter.mp h2).1
    · have h1 := List.getElem_mem hk
      have h2 := (List.mem_filter.mp h1).1
      have h3 := (List.mem_filter.mp h2).2
      simpa using h3
    · have h1 := List.getElem_mem hk
      have h3 := (List.mem_filter.mp h1).2
      simpa using h3
    · rw [hS, List.getElem?_map, List.getElem?_eq_getElem hk]
      rfl
    · rw [List.getElem?_map, List.getElem?_eq_getElem hk]
      rfl

/-- Worker map for the C5 witness instance. -/
def c5wm : String → Nat := fun d => if d = "s" then 0 else 1

/-- Rank map for the C5 witness instance. -/
def c5rm : String → Nat × Nat := fun d => if d = "s" then (0, 0) else (1, 0)

/-- One destination tile with one replica receiving one slice from one
sender, for the C5 witness instance. -/
def c5tiles : List (TileCompileInput Nat Nat) :=
  [⟨[("r", ["s"])], [(5, 9)], [2, 2]⟩]

/-- Witness for C5 at a concrete one-transfer compilation. -/
theorem C5_send_recv_pairing_witness :
    (∀ d, c5wm d = (fun n : Nat => n) (c5rm d).1) ∧
    (∀ w, (compile_send_recv_tasks c5wm c5rm (fun _ => 0)
        (fun i _ => i) 7 (initCompileState Nat Nat Nat)
        c5tiles).sender_tasks w =
      ((allEvents c5tiles).filter (fun e => c5wm e.1 = w)).map
        (sendEntryOf c5rm)) :=
  ⟨fun d => by by_cases hd : d = "s" <;> simp [c5wm, c5rm, hd],
    (C5_send_recv_pairing c5wm c5rm (fun _ => 0) (fun i _ => i) 7
      (fun n => n)
      (fun d => by by_cases hd : d = "s" <;> simp [c5wm, c5rm, hd])
      c5tiles).1⟩

/-! ## `ReshardingTaskSpec._look_up_dst_tile_from_src`

Per destination tile `T` (given by its global index ranges
`[lo i, hi i)` per tensor axis), the function computes, for every source
tile touched by `T`, the slice of that source tile to extract (`offsets`)
and its placement inside the local index space of `T` (`indices`).

External pieces modelled from the spec (their code lives in
`alpa/pipeline_parallel/resharding_tensor.py`, which is not under `src/`):
- `unflatten_tile_index`: row-major unflattening of a linear index into
  per-axis coordinates;
- the source `VirtualDistributedArray` tile grid: `src.tile_shape[i]` is the
  number of source tiles along axis `i`, and — the tiling being an even grid
  (the code asserts `not ragged`) — every tile of `src.tiles` has extent
  `tensor_shape[i] / tile_shape[i]` on axis `i`
  (`self.src.tiles[...].tile_shape[i]` below);
- the destination tile: its `tile.indices[i]` is `slice(lo i, hi i)` and its
  `tile.tile_shape[i]` is `hi i - lo i` (tiles partition the index space).

Machine arithmetic: all quantities are natural numbers and the divisor
`tile_length` is positive under the theorem hypotheses (the code asserts
even division), so Lean `/` and `%` agree with Python `divmod`. -/

structure PySlice where
  start : Nat
  stop : Nat
deriving DecidableEq, Repr

/-- Modelled from the spec: `unflatten_tile_index` performs row-major
unflattening of a linear index into per-axis coordinates. -/
def unflatten_tile_index (k : Nat) (dims : List Nat) : List Nat :=
  match dims with
  | [] => []
  | _ :: rest => k / rest.prod :: unflatten_tile_index (k % rest.prod) rest

/-- Row-major flattening, the inverse of `unflatten_tile_index`
(specification side, used to state and prove the bijection). -/
def flatten_index : List Nat → List Nat → Nat
  | r :: rs, _ :: ds => r * ds.prod + flatten_index rs ds
  | _, _ => 0

/-- The per-axis quantities computed by the first loop of
`_look_up_dst_tile_from_src`: tile length on the axis, the first and
one-past-last intersecting source tile, and the partial offsets into the
first and last tiles. -/
structure AxisInfo where
  tileLength : Nat
  startTile : Nat
  endTile : Nat
  startOffset : Nat
  endOffset : Nat
deriving DecidableEq, Repr

instance : Inhabited AxisInfo := ⟨⟨0, 0, 0, 0, 0⟩⟩

/-- One iteration of the first loop: `divmod` decompositions of the tile
boundaries, the `end_tile` bump when the stop falls inside a tile, and the
`end_offset = tile_length` fix-up when the stop falls on a boundary. -/
def axisInfo (dim count lo hi : Nat) : AxisInfo :=
  let tile_length := dim / count
  let start_tile := lo / tile_length
  let start_tile_offset := lo % tile_length
  let end_tile0 := hi / tile_length
  let end_tile_offset0 := hi % tile_length
  let end_tile := if end_tile_offset0 ≠ 0 then end_tile0 + 1 else end_tile0
  let end_offset :=
    if end_tile_offset0 = 0 then tile_length else end_tile_offset0
  ⟨tile_length, start_tile, end_tile, start_tile_offset, end_offset⟩

/-- The per-dimension case split of the second loop (`r` is the absolute
source tile index on this axis, `rel` its index relative to the first
involved tile, `tShape` the destination tile extent `hi - lo`): produces
`(offset slice into the source tile, index slice into the dst tile)`. -/
def axisSlices (a : AxisInfo) (tShape r rel : Nat) : PySlice × PySlice :=
  if r = a.startTile ∧ r + 1 = a.endTile then
    (⟨a.startOffset, a.endOffset⟩, ⟨0, tShape⟩)
  else if r = a.startTile then
    (⟨a.startOffset, a.tileLength⟩, ⟨0, a.tileLength - a.startOffset⟩)
  else if r + 1 = a.endTile then
    (⟨0, a.endOffset⟩, ⟨tShape - a.endOffset, tShape⟩)
  else
    (⟨0, a.tileLength⟩,
      ⟨a.tileLength - a.startOffset + (rel - 1) * a.tileLength,
        a.tileLength - a.startOffset + (rel - 1) * a.tileLength +
          a.tileLength⟩)

/-- Embedding of `_look_up_dst_tile_from_src`: result entry `k` is the pair
`(offsets, indices_in_dst_tile)` of the `k`-th source tile slice, `k`
running over the row-major enumeration of the intersecting tile box. -/
def lookUpDstTileFromSrc (tensorShape tileCounts lo hi : List Nat) :
    List (List PySlice × List PySlice) :=
  let n := tensorShape.length
  let infos := (List.range n).map (fun i =>
    axisInfo (tensorShape.getD i 0) (tileCounts.getD i 0) (lo.getD i 0)
      (hi.getD i 0))
  let counts := infos.map (fun a => a.endTile - a.startTile)
  let num := counts.prod
  (List.range num).map (fun k =>
    let rel := unflatten_tile_index k counts
    let pairs := (List.range n).map (fun i =>
      axisSlices (infos.getD i default) (hi.getD i 0 - lo.getD i 0)
        ((infos.getD i default).startTile + rel.getD i 0) (rel.getD i 0))
    (pairs.map Prod.fst, pairs.map Prod.snd))

/-- Arithmetic facts about the quantities of one axis, under the conditions
the code relies on: positive tile count, even division (the code asserts
`not ragged`), and a valid destination tile range. -/
theorem axisInfo_facts (dim count lo hi : Nat) (hc : 0 < count)
    (hdvd : count ∣ dim) (hlh : lo < hi) (hhd : hi ≤ dim) :
    0 < (axisInfo dim count lo hi).tileLength ∧
    lo = (axisInfo dim count lo hi).startTile *
        (axisInfo dim count lo hi).tileLength +
      (axisInfo dim count lo hi).startOffset ∧
    (axisInfo dim count lo hi).startOffset <
      (axisInfo dim count lo hi).tileLength ∧
    hi = ((axisInfo dim count lo hi).endTile - 1) *
        (axisInfo dim count lo hi).tileLength +
      (axisInfo dim count lo hi).endOffset ∧
    0 < (axisInfo dim count lo hi).endOffset ∧
    (axisInfo dim count lo hi).endOffset ≤
      (axisInfo dim count lo hi).tileLength ∧
    (axisInfo dim count lo hi).startTile <
      (axisInfo dim count lo hi).endTile ∧
    hi ≤ (axisInfo dim count lo hi).endTile *
      (axisInfo dim count lo hi).tileLength := by
  have hL : (axisInfo dim count lo hi).tileLength = dim / count := rfl
  have hs : (axisInfo dim count lo hi).startTile = lo / (dim / count) := rfl
  have hso : (axisInfo dim count lo hi).startOffset =
    lo % (dim / count) := rfl
  have he : (axisInfo dim count lo hi).endTile =
    if hi % (dim / count) ≠ 0 then hi / (dim / count) + 1
    else hi / (dim / count) := rfl
  have heo : (axisInfo dim count lo hi).endOffset =
    if hi % (dim / count) = 0 then dim / count
    else hi % (dim / count) := rfl
  obtain ⟨m, hm⟩ := hdvd
  have hLm : dim / count = m := by
    rw [hm]
    exact Nat.mul_div_cancel_left m hc
  have hdimpos : 0 < dim := by omega
  have hLpos : 0 < dim / count := by
    rw [hLm]
    rcases Nat.eq_zero_or_pos m with h0 | h0
    · rw [h0, Nat.mul_zero] at hm
      omega
    · exact h0
  set L := dim / count with hLdef
  have hlo : L * (lo / L) + lo % L = lo := Nat.div_add_mod lo L
  have hhi : L * (hi / L) + hi % L = hi := Nat.div_add_mod hi L
  have hsoL : lo % L < L := Nat.mod_lt lo hLpos
  have hflip1 : (lo / L) * L = L * (lo / L) := Nat.mul_comm _ _
  have hflip2 : (hi / L) * L = L * (hi / L) := Nat.mul_comm _ _
  have hipos : 0 < hi := by omega
  refine ⟨hLpos, ?_, ?_, ?_, ?_, ?_, ?_, ?_⟩
  · rw [hL, hs, hso]
    omega
  · rw [hL, hso]
    exact hsoL
  · rw [hL, he, heo]
    by_cases hz : hi % L = 0
    · rw [if_neg (fun hcon => hcon hz), if_pos hz]
      have hq : 0 < hi / L := by
        rcases Nat.eq_zero_or_pos (hi / L) with h0 | h0
        · exfalso
          rw [h0] at hhi
          simp at hhi
          omega
        · exact h0
      have hstep : (hi / L - 1) * L + L = hi / L * L := by
        have h1 : hi / L - 1 + 1 = hi / L := by omega
        calc (hi / L - 1) * L + L = (hi / L - 1 + 1) * L := by ring
          _ = hi / L * L := by rw [h1]
      rw [hstep, hflip2]
      omega
    · rw [if_pos hz, if_neg hz]
      have h1 : hi / L + 1 - 1 = hi / L := rfl
      rw [h1, hflip2]
      omega
  · rw [heo]
    by_cases hz : hi % L = 0
    · rw [if_pos hz]
      exact hLpos
    · rw [if_neg hz]
      omega
  · rw [hL, heo]
    by_cases hz : hi % L = 0
    · rw [if_pos hz]
    · rw [if_neg hz]
      exact le_of_lt (Nat.mod_lt hi hLpos)
  · rw [hs, he]
    have hmono : lo / L ≤ hi / L := Nat.div_le_div_right (le_of_lt hlh)
    by_cases hz : hi % L = 0
    · rw [if_neg (fun hcon => hcon hz)]
      rcases Nat.lt_or_ge (lo / L) (hi / L) with h | h
      · exact h
      · exfalso
        have heq : lo / L = hi / L := le_antisymm hmono h
        rw [← heq] at hhi
        omega
    · rw [if_pos hz]
      omega
  · rw [hL, he]
    by_cases hz : hi % L = 0
    · rw [if_neg (fun hcon => hcon hz), hflip2]
      omega
    · rw [if_pos hz]
      have hmul : (hi / L + 1) * L = hi / L * L + L := by ring
      have hmod : hi % L < L := Nat.mod_lt hi hLpos
      rw [hmul, hflip2]
      omega

/-- Canonical description of the index slice produced for axis tile `r`:
it is exactly `[max (r L) lo - lo, min ((r+1) L) hi - lo)` in the local
coordinates of the destination tile — together with the offset/index extent
equality and containment in `[0, hi - lo)`. -/
theorem axis_canonical (L s e so eo lo hi r : Nat)
    (hLpos : 0 < L) (hlo : lo = s * L + so) (hso : so < L)
    (hhi : hi = (e - 1) * L + eo) (heo1 : 0 < eo) (heo2 : eo ≤ L)
    (hse : s < e) (hr1 : s ≤ r) (hr2 : r < e) :
    (axisSlices ⟨L, s, e, so, eo⟩ (hi - lo) r (r - s)).2 =
      ⟨max (r * L) lo - lo, min ((r + 1) * L) hi - lo⟩ ∧
    (axisSlices ⟨L, s, e, so, eo⟩ (hi - lo) r (r - s)).1.stop -
      (axisSlices ⟨L, s, e, so, eo⟩ (hi - lo) r (r - s)).1.start =
    (axisSlices ⟨L, s, e, so, eo⟩ (hi - lo) r (r - s)).2.stop -
      (axisSlices ⟨L, s, e, so, eo⟩ (hi - lo) r (r - s)).2.start ∧
    (axisSlices ⟨L, s, e, so, eo⟩ (hi - lo) r (r - s)).2.stop ≤ hi - lo := by
  have hr1L : (r + 1) * L = r * L + L := by ring
  by_cases hc1 : r = s
  · by_cases hc2 : r + 1 = e
    · unfold axisSlices
      rw [if_pos ⟨hc1, hc2⟩]
      subst hc1
      subst hc2
      simp only [Nat.add_sub_cancel] at hhi
      refine ⟨?_, ?_, ?_⟩
      · simp only [PySlice.mk.injEq]
        refine ⟨by omega, by omega⟩
      · simp only []
        omega
      · simp only []
        omega
    · unfold axisSlices
      rw [if_neg (fun h => hc2 h.2), if_pos hc1]
      subst hc1
      have hc2lt : r + 1 < e := by omega
      have hr1E : (r + 1) * L ≤ (e - 1) * L :=
        Nat.mul_le_mul_right L (by omega)
      refine ⟨?_, ?_, ?_⟩
      · simp only [PySlice.mk.injEq]
        refine ⟨by omega, by omega⟩
      · simp only []
        omega
      · simp only []
        omega
  · have hrgtS : s + 1 ≤ r := by omega
    have hsl1 : s * L + L ≤ r * L := by
      have h1 : (s + 1) * L ≤ r * L := Nat.mul_le_mul_right L hrgtS
      have h2 : (s + 1) * L = s * L + L := by ring
      omega
    by_cases hc2 : r + 1 = e
    · unfold axisSlices
      rw [if_neg (fun h => hc1 h.1), if_neg hc1, if_pos hc2]
      subst hc2
      simp only [Nat.add_sub_cancel] at hhi
      refine ⟨?_, ?_, ?_⟩
      · simp only [PySlice.mk.injEq]
        refine ⟨by omega, by omega⟩
      · simp only []
        omega
      · simp only []
        omega
    · unfold axisSlices
      rw [if_neg (fun h => hc1 h.1), if_neg hc1, if_neg hc2]
      have hc2lt : r + 1 < e := by omega
      have hr1E : (r + 1) * L ≤ (e - 1) * L :=
        Nat.mul_le_mul_right L (by omega)
      have hhiE : hi ≤ e * L := by
        have h1 : e * L = (e - 1 + 1) * L := by
          have h2 : e - 1 + 1 = e := by omega
          rw [h2]
        have h3 : (e - 1 + 1) * L = (e - 1) * L + L := by ring
        omega
      have hrelL : (r - s) * L = r * L - s * L := Nat.sub_mul r s L
      have hrel1L : (r - s - 1) * L = (r - s) * L - L := by
        rw [Nat.sub_mul (r - s) 1 L]
        simp
      have hrelge : L ≤ (r - s) * L := by
        have h1 : 1 * L ≤ (r - s) * L :=
          Nat.mul_le_mul_right L (by omega)
        omega
      refine ⟨?_, ?_, ?_⟩
      · simp only [PySlice.mk.injEq]
        refine ⟨by omega, by omega⟩
      · simp only []
        omega
      · simp only []
        omega

/-- Existence and uniqueness of the axis tile containing a local point `p`:
the canonical intervals `[max (r L) lo - lo, min ((r+1) L) hi - lo)` for
`r ∈ [s, e)` partition `[0, hi - lo)`, the tile containing `p` being
`(lo + p) / L`. -/
theorem axis_cover (L s e so eo lo hi : Nat)
    (hLpos : 0 < L) (hlo : lo = s * L + so) (hso : so < L)
    (hhi : hi = (e - 1) * L + eo) (heo1 : 0 < eo) (heo2 : eo ≤ L)
    (hse : s < e) (p : Nat) (hp : p < hi - lo) :
    (s ≤ (lo + p) / L ∧ (lo + p) / L < e ∧
      max ((lo + p) / L * L) lo - lo ≤ p ∧
      p < min (((lo + p) / L + 1) * L) hi - lo) ∧
    (∀ r, s ≤ r → r < e → max (r * L) lo - lo ≤ p →
      p < min ((r + 1) * L) hi - lo → r = (lo + p) / L) := by
  have hgl : lo ≤ lo + p := Nat.le_add_right lo p
  have hgh : lo + p < hi := by omega
  have hdm : L * ((lo + p) / L) + (lo + p) % L = lo + p :=
    Nat.div_add_mod (lo + p) L
  have hmodlt : (lo + p) % L < L := Nat.mod_lt (lo + p) hLpos
  have hflip : (lo + p) / L * L = L * ((lo + p) / L) := Nat.mul_comm _ _
  have hq1L : ((lo + p) / L + 1) * L = (lo + p) / L * L + L := by ring
  have heL : e * L = (e - 1) * L + L := by
    have h1 : e - 1 + 1 = e := by omega
    calc e * L = (e - 1 + 1) * L := by rw [h1]
      _ = (e - 1) * L + L := by ring
  have hhiE : hi ≤ e * L := by omega
  constructor
  · have hsle : s ≤ (lo + p) / L := by
      rw [Nat.le_div_iff_mul_le hLpos]
      omega
    have hlte : (lo + p) / L < e := by
      rw [Nat.div_lt_iff_lt_mul hLpos]
      omega
    refine ⟨hsle, hlte, ?_, ?_⟩
    · omega
    · omega
  · intro r hrs hre hA hB
    have hrL : r * L ≤ lo + p := by omega
    have hrL2 : lo + p < (r + 1) * L := by omega
    exact (Nat.div_eq_of_lt_le hrL hrL2).symm

theorem unflatten_length :
    ∀ (dims : List Nat) (k : Nat),
      (unflatten_tile_index k dims).length = dims.length := by
  intro dims
  induction dims with
  | nil => intro k; rfl
  | cons d rest ih =>
      intro k
      simp [unflatten_tile_index, ih]

theorem unflatten_lt :
    ∀ (dims : List Nat) (k : Nat), k < dims.prod →
      ∀ i, i < dims.length →
        (unflatten_tile_index k dims).getD i 0 < dims.getD i 0 := by
  intro dims
  induction dims with
  | nil => intro k _ i hi; simp at hi
  | cons d rest ih =>
      intro k hk i hi
      have hP : 0 < rest.prod := by
        rcases Nat.eq_zero_or_pos rest.prod with h0 | h0
        · rw [List.prod_cons, h0, Nat.mul_zero] at hk
          omega
        · exact h0
      cases i with
      | zero =>
          simp only [unflatten_tile_index, List.getD_cons_zero]
          rw [Nat.div_lt_iff_lt_mul hP]
          rw [List.prod_cons] at hk
          omega
      | succ i =>
          simp only [unflatten_tile_index, List.getD_cons_succ]
          exact ih (k % rest.prod) (Nat.mod_lt k hP) i (by simpa using hi)

theorem flatten_unflatten :
    ∀ (dims : List Nat) (k : Nat), k < dims.prod →
      flatten_index (unflatten_tile_index k dims) dims = k := by
  intro dims
  induction dims with
  | nil => intro k hk; simp [List.prod_nil] at hk; simp [hk,
      unflatten_tile_index, flatten_index]
  | cons d rest ih =>
      intro k hk
      have hP : 0 < rest.prod := by
        rcases Nat.eq_zero_or_pos rest.prod with h0 | h0
        · rw [List.prod_cons, h0, Nat.mul_zero] at hk
          omega
        · exact h0
      simp only [unflatten_tile_index, flatten_index]
      rw [ih (k % rest.prod) (Nat.mod_lt k hP)]
      have := Nat.div_add_mod k rest.prod
      have hcomm : k / rest.prod * rest.prod =
        rest.prod * (k / rest.prod) := Nat.mul_comm _ _
      omega

theorem unflatten_flatten :
    ∀ (dims rel : List Nat), rel.length = dims.length →
      (∀ i, i < dims.length → rel.getD i 0 < dims.getD i 0) →
      flatten_index rel dims < dims.prod ∧
        unflatten_tile_index (flatten_index rel dims) dims = rel := by
  intro dims
  induction dims with
  | nil =>
      intro rel hlen _
      rw [List.length_nil, List.length_eq_zero] at hlen
      subst hlen
      exact ⟨by simp [flatten_index], by simp [flatten_index,
        unflatten_tile_index]⟩
  | cons d rest ih =>
      intro rel hlen hbound
      rcases rel with _ | ⟨r, rs⟩
      · simp at hlen
      have hlen2 : rs.length = rest.length := by simpa using hlen
      have hr : r < d := by
        have := hbound 0 (by simp)
        simpa using this
      have hbound2 : ∀ i, i < rest.length →
          rs.getD i 0 < rest.getD i 0 := by
        intro i hi
        have := hbound (i + 1) (by simpa using hi)
        simpa using this
      rcases ih rs hlen2 hbound2 with ⟨hflt, hunf⟩
      have hP : 0 < rest.prod := by omega
      have hdP : (r + 1) * rest.prod ≤ d * rest.prod :=
        Nat.mul_le_mul_right rest.prod (by omega)
      have hr1P : (r + 1) * rest.prod = r * rest.prod + rest.prod := by ring
      constructor
      · simp only [flatten_index, List.prod_cons]
        omega
      · simp only [flatten_index, unflatten_tile_index]
        have hdiv : (r * rest.prod + flatten_index rs rest) / rest.prod =
            r := by
          apply Nat.div_eq_of_lt_le
          · omega
          · omega
        have hmod : (r * rest.prod + flatten_index rs rest) % rest.prod =
            flatten_index rs rest := by
          have hc : r * rest.prod + flatten_index rs rest =
              flatten_index rs rest + r * rest.prod := by ring
          rw [hc, Nat.add_mul_mod_self_right]
          exact Nat.mod_eq_of_lt hflt
        rw [hdiv, hmod, hunf]

theorem getD_map_range {α : Type} (f : Nat → α) (n i : Nat) (d : α)
    (h : i < n) :
    ((List.range n).map f).getD i d = f i := by
  rw [List.getD_eq_getElem ((List.range n).map f) d (by simpa using h)]
  rw [List.getElem_map, List.getElem_range]

/-- The per-axis `AxisInfo` of a look-up instance. -/
def axisInfoAt (tensorShape tileCounts lo hi : List Nat) (i : Nat) :
    AxisInfo :=
  axisInfo (tensorShape.getD i 0) (tileCounts.getD i 0) (lo.getD i 0)
    (hi.getD i 0)

/-- The list `[end - start for each axis]` of intersecting-tile counts. -/
def tileCountsOf (tensorShape tileCounts lo hi : List Nat) : List Nat :=
  ((List.range tensorShape.length).map (fun i =>
    axisInfo (tensorShape.getD i 0) (tileCounts.getD i 0) (lo.getD i 0)
      (hi.getD i 0))).map (fun a => a.endTile - a.startTile)

/-- The `k`-th `(offsets, indices_in_dst_tile)` pair of a look-up. -/
def lookUpEntry (tensorShape tileCounts lo hi : List Nat) (k : Nat) :
    List PySlice × List PySlice :=
  let n := tensorShape.length
  let infos := (List.range n).map (fun i =>
    axisInfo (tensorShape.getD i 0) (tileCounts.getD i 0) (lo.getD i 0)
      (hi.getD i 0))
  let counts := infos.map (fun a => a.endTile - a.startTile)
  let rel := unflatten_tile_index k counts
  let pairs := (List.range n).map (fun i =>
    axisSlices (infos.getD i default) (hi.getD i 0 - lo.getD i 0)
      ((infos.getD i default).startTile + rel.getD i 0) (rel.getD i 0))
  (pairs.map Prod.fst, pairs.map Prod.snd)

theorem lookUp_eq (tensorShape tileCounts lo hi : List Nat) :
    lookUpDstTileFromSrc tensorShape tileCounts lo hi =
      (List.range (tileCountsOf tensorShape tileCounts lo hi).prod).map
        (lookUpEntry tensorShape tileCounts lo hi) := rfl

theorem lookUpEntry_getD (tensorShape tileCounts lo hi : List Nat)
    (k i : Nat) (hin : i < tensorShape.length) :
    (lookUpEntry tensorShape tileCounts lo hi k).1.getD i ⟨0, 0⟩ =
      (axisSlices (axisInfoAt tensorShape tileCounts lo hi i)
        (hi.getD i 0 - lo.getD i 0)
        ((axisInfoAt tensorShape tileCounts lo hi i).startTile +
          (unflatten_tile_index k
            (tileCountsOf tensorShape tileCounts lo hi)).getD i 0)
        ((unflatten_tile_index k
          (tileCountsOf tensorShape tileCounts lo hi)).getD i 0)).1 ∧
    (lookUpEntry tensorShape tileCounts lo hi k).2.getD i ⟨0, 0⟩ =
      (axisSlices (axisInfoAt tensorShape tileCounts lo hi i)
        (hi.getD i 0 - lo.getD i 0)
        ((axisInfoAt tensorShape tileCounts lo hi i).startTile +
          (unflatten_tile_index k
            (tileCountsOf tensorShape tileCounts lo hi)).getD i 0)
        ((unflatten_tile_index k
          (tileCountsOf tensorShape tileCounts lo hi)).getD i 0)).2 := by
  have hinfo : ((List.range tensorShape.length).map (fun j =>
      axisInfo (tensorShape.getD j 0) (tileCounts.getD j 0) (lo.getD j 0)
        (hi.getD j 0))).getD i default =
      axisInfoAt tensorShape tileCounts lo hi i :=
    getD_map_range _ _ _ _ hin
  constructor
  · simp only [lookUpEntry]
    rw [List.map_map]
    rw [getD_map_range _ _ _ _ hin]
    simp only [Function.comp_def]
    rw [hinfo]
    rfl
  · simp only [lookUpEntry]
    rw [List.map_map]
    rw [getD_map_range _ _ _ _ hin]
    simp only [Function.comp_def]
    rw [hinfo]
    rfl

theorem axis_entry_spec (a : AxisInfo) (lo hi rel : Nat)
    (hLpos : 0 < a.tileLength)
    (hlo : lo = a.startTile * a.tileLength + a.startOffset)
    (hso : a.startOffset < a.tileLength)
    (hhi : hi = (a.endTile - 1) * a.tileLength + a.endOffset)
    (heo1 : 0 < a.endOffset) (heo2 : a.endOffset ≤ a.tileLength)
    (hse : a.startTile < a.endTile)
    (hrel : rel < a.endTile - a.startTile) :
    (axisSlices a (hi - lo) (a.startTile + rel) rel).2 =
      ⟨max ((a.startTile + rel) * a.tileLength) lo - lo,
        min ((a.startTile + rel + 1) * a.tileLength) hi - lo⟩ ∧
    (axisSlices a (hi - lo) (a.startTile + rel) rel).1.stop -
      (axisSlices a (hi - lo) (a.startTile + rel) rel).1.start =
    (axisSlices a (hi - lo) (a.startTile + rel) rel).2.stop -
      (axisSlices a (hi - lo) (a.startTile + rel) rel).2.start ∧
    (axisSlices a (hi - lo) (a.startTile + rel) rel).2.stop ≤ hi - lo := by
  obtain ⟨L, s, e, so, eo⟩ := a
  dsimp only at hLpos hlo hso hhi heo1 heo2 hse hrel ⊢
  have hc := axis_canonical L s e so eo lo hi (s + rel) hLpos hlo hso hhi
    heo1 heo2 hse (by omega) (by omega)
  rw [show s + rel - s = rel from by omega] at hc
  exact hc

theorem axis_cover_info (a : AxisInfo) (lo hi : Nat)
    (hLpos : 0 < a.tileLength)
    (hlo : lo = a.startTile * a.tileLength + a.startOffset)
    (hso : a.startOffset < a.tileLength)
    (hhi : hi = (a.endTile - 1) * a.tileLength + a.endOffset)
    (heo1 : 0 < a.endOffset) (heo2 : a.endOffset ≤ a.tileLength)
    (hse : a.startTile < a.endTile)
    (p : Nat) (hp : p < hi - lo) :
    ((lo + p) / a.tileLength - a.startTile <
        a.endTile - a.startTile ∧
      max ((a.startTile + ((lo + p) / a.tileLength - a.startTile)) *
          a.tileLength) lo - lo ≤ p ∧
      p < min ((a.startTile + ((lo + p) / a.tileLength - a.startTile) + 1) *
          a.tileLength) hi - lo) ∧
    (∀ rel, rel < a.endTile - a.startTile →
      max ((a.startTile + rel) * a.tileLength) lo - lo ≤ p →
      p < min ((a.startTile + rel + 1) * a.tileLength) hi - lo →
      rel = (lo + p) / a.tileLength - a.startTile) := by
  obtain ⟨L, s, e, so, eo⟩ := a
  dsimp only at hLpos hlo hso hhi heo1 heo2 hse ⊢
  have hc := axis_cover L s e so eo lo hi hLpos hlo hso hhi heo1 heo2 hse
    p hp
  rcases hc with ⟨⟨hsle, hlte, hA, hB⟩, huniq⟩
  have hr : s + ((lo + p) / L - s) = (lo + p) / L := by omega
  constructor
  · refine ⟨by omega, ?_, ?_⟩
    · rw [hr]
      exact hA
    · rw [hr]
      exact hB
  · intro rel hrel hA2 hB2
    have := huniq (s + rel) (by omega) (by omega) hA2 hB2
    omega

theorem tileCountsOf_length (tensorShape tileCounts lo hi : List Nat) :
    (tileCountsOf tensorShape tileCounts lo hi).length =
      tensorShape.length := by
  simp [tileCountsOf]

theorem tileCountsOf_getD (tensorShape tileCounts lo hi : List Nat)
    (i : Nat) (hin : i < tensorShape.length) :
    (tileCountsOf tensorShape tileCounts lo hi).getD i 0 =
      (axisInfoAt tensorShape tileCounts lo hi i).endTile -
        (axisInfoAt tensorShape tileCounts lo hi i).startTile := by
  unfold tileCountsOf
  rw [List.map_map, getD_map_range _ _ _ _ hin]
  rfl

/-- C1: for a destination tile `[lo i, hi i)` of a spec whose source tiling
divides the array evenly, the pairs returned by
`_look_up_dst_tile_from_src` satisfy: on every axis each tile slice\u2019s
offset extent equals the extent of its placement range in the destination
tile; every placement range lies inside the tile\u2019s local index space; and
every local point of the destination tile lies in the placement box of
exactly one returned slice (no overlap, no gap). -/
theorem C1_look_up_tiles_exact (tensorShape tileCounts lo hi : List Nat)
    (hlen1 : tileCounts.length = tensorShape.length)
    (hlen2 : lo.length = tensorShape.length)
    (hlen3 : hi.length = tensorShape.length)
    (hax : ∀ i, i < tensorShape.length →
      0 < tileCounts.getD i 0 ∧ tileCounts.getD i 0 ∣ tensorShape.getD i 0 ∧
      lo.getD i 0 < hi.getD i 0 ∧ hi.getD i 0 ≤ tensorShape.getD i 0) :
    (∀ k, k < (lookUpDstTileFromSrc tensorShape tileCounts lo hi).length →
      ∀ i, i < tensorShape.length →
        ((((lookUpDstTileFromSrc tensorShape tileCounts lo hi).getD k
            ([], [])).1.getD i ⟨0, 0⟩).stop -
          (((lookUpDstTileFromSrc tensorShape tileCounts lo hi).getD k
            ([], [])).1.getD i ⟨0, 0⟩).start =
        (((lookUpDstTileFromSrc tensorShape tileCounts lo hi).getD k
            ([], [])).2.getD i ⟨0, 0⟩).stop -
          (((lookUpDstTileFromSrc tensorShape tileCounts lo hi).getD k
            ([], [])).2.getD i ⟨0, 0⟩).start) ∧
        (((lookUpDstTileFromSrc tensorShape tileCounts lo hi).getD k
            ([], [])).2.getD i ⟨0, 0⟩).stop ≤
          hi.getD i 0 - lo.getD i 0) ∧
    (∀ p : List Nat, p.length = tensorShape.length →
      (∀ i, i < tensorShape.length →
        p.getD i 0 < hi.getD i 0 - lo.getD i 0) →
      ∃! k, k < (lookUpDstTileFromSrc tensorShape tileCounts lo hi).length ∧
        ∀ i, i < tensorShape.length →
          (((lookUpDstTileFromSrc tensorShape tileCounts lo hi).getD k
              ([], [])).2.getD i ⟨0, 0⟩).start ≤ p.getD i 0 ∧
          p.getD i 0 < (((lookUpDstTileFromSrc tensorShape tileCounts lo
              hi).getD k ([], [])).2.getD i ⟨0, 0⟩).stop) := by
  have hfacts : ∀ i, i < tensorShape.length →
      0 < (axisInfoAt tensorShape tileCounts lo hi i).tileLength ∧
      lo.getD i 0 =
        (axisInfoAt tensorShape tileCounts lo hi i).startTile *
          (axisInfoAt tensorShape tileCounts lo hi i).tileLength +
        (axisInfoAt tensorShape tileCounts lo hi i).startOffset ∧
      (axisInfoAt tensorShape tileCounts lo hi i).startOffset <
        (axisInfoAt tensorShape tileCounts lo hi i).tileLength ∧
      hi.getD i 0 =
        ((axisInfoAt tensorShape tileCounts lo hi i).endTile - 1) *
          (axisInfoAt tensorShape tileCounts lo hi i).tileLength +
        (axisInfoAt tensorShape tileCounts lo hi i).endOffset ∧
      0 < (axisInfoAt tensorShape tileCounts lo hi i).endOffset ∧
      (axisInfoAt tensorShape tileCounts lo hi i).endOffset ≤
        (axisInfoAt tensorShape tileCounts lo hi i).tileLength ∧
      (axisInfoAt tensorShape tileCounts lo hi i).startTile <
        (axisInfoAt tensorShape tileCounts lo hi i).endTile ∧
      hi.getD i 0 ≤ (axisInfoAt tensorShape tileCounts lo hi i).endTile *
        (axisInfoAt tensorShape tileCounts lo hi i).tileLength := by
    intro i hin
    exact axisInfo_facts (tensorShape.getD i 0) (tileCounts.getD i 0)
      (lo.getD i 0) (hi.getD i 0) (hax i hin).1 (hax i hin).2.1
      (hax i hin).2.2.1 (hax i hin).2.2.2
  have hcl : (tileCountsOf tensorShape tileCounts lo hi).length =
      tensorShape.length := tileCountsOf_length tensorShape tileCounts lo hi
  have hreslen : (lookUpDstTileFromSrc tensorShape tileCounts lo hi).length =
      (tileCountsOf tensorShape tileCounts lo hi).prod := by
    rw [lookUp_eq]
    simp
  have hresget : ∀ k, k < (tileCountsOf tensorShape tileCounts lo hi).prod →
      (lookUpDstTileFromSrc tensorShape tileCounts lo hi).getD k ([], []) =
        lookUpEntry tensorShape tileCounts lo hi k := by
    intro k hk
    rw [lookUp_eq]
    exact getD_map_range _ _ _ _ hk
  constructor
  · intro k hk i hin
    rw [hreslen] at hk
    rw [hresget k hk]
    obtain ⟨h1, h2⟩ := lookUpEntry_getD tensorShape tileCounts lo hi k i hin
    rw [h1, h2]
    have hrelb : (unflatten_tile_index k
        (tileCountsOf tensorShape tileCounts lo hi)).getD i 0 <
        (axisInfoAt tensorShape tileCounts lo hi i).endTile -
          (axisInfoAt tensorShape tileCounts lo hi i).startTile := by
      have := unflatten_lt (tileCountsOf tensorShape tileCounts lo hi) k hk
        i (by rw [hcl]; exact hin)
      rw [tileCountsOf_getD tensorShape tileCounts lo hi i hin] at this
      exact this
    obtain ⟨hf1, hf2, hf3, hf4, hf5, hf6, hf7, _⟩ := hfacts i hin
    have hes := axis_entry_spec (axisInfoAt tensorShape tileCounts lo hi i)
      (lo.getD i 0) (hi.getD i 0)
      ((unflatten_tile_index k
        (tileCountsOf tensorShape tileCounts lo hi)).getD i 0)
      hf1 hf2 hf3 hf4 hf5 hf6 hf7 hrelb
    exact ⟨hes.2.1, hes.2.2⟩
  · intro p hplen hpbox
    have hbnd : ∀ j, j < (tileCountsOf tensorShape tileCounts lo hi).length →
        (((List.range tensorShape.length).map (fun i =>
        (lo.getD i 0 + p.getD i 0) /
          (axisInfoAt tensorShape tileCounts lo hi i).tileLength -
        (axisInfoAt tensorShape tileCounts lo hi i).startTile))).getD j 0 <
        (tileCountsOf tensorShape tileCounts lo hi).getD j 0 := by
      intro j hj
      have hjn : j < tensorShape.length := by
        rw [hcl] at hj
        exact hj
      rw [getD_map_range _ _ _ _ hjn,
        tileCountsOf_getD tensorShape tileCounts lo hi j hjn]
      obtain ⟨hf1, hf2, hf3, hf4, hf5, hf6, hf7, _⟩ := hfacts j hjn
      exact ((axis_cover_info (axisInfoAt tensorShape tileCounts lo hi j)
        (lo.getD j 0) (hi.getD j 0) hf1 hf2 hf3 hf4 hf5 hf6 hf7
        (p.getD j 0) (hpbox j hjn)).1).1
    have hlenS : (((List.range tensorShape.length).map (fun i =>
        (lo.getD i 0 + p.getD i 0) /
          (axisInfoAt tensorShape tileCounts lo hi i).tileLength -
        (axisInfoAt tensorShape tileCounts lo hi i).startTile))).length =
        (tileCountsOf tensorShape tileCounts lo hi).length := by
      rw [hcl]
      simp
    have hkey := unflatten_flatten (tileCountsOf tensorShape tileCounts lo hi)
      ((List.range tensorShape.length).map (fun i =>
        (lo.getD i 0 + p.getD i 0) /
          (axisInfoAt tensorShape tileCounts lo hi i).tileLength -
        (axisInfoAt tensorShape tileCounts lo hi i).startTile)) hlenS hbnd
    refine ⟨(flatten_index ((List.range tensorShape.length).map (fun i =>
        (lo.getD i 0 + p.getD i 0) /
          (axisInfoAt tensorShape tileCounts lo hi i).tileLength -
        (axisInfoAt tensorShape tileCounts lo hi i).startTile))
      (tileCountsOf tensorShape tileCounts lo hi)), ⟨?_, ?_⟩, ?_⟩
    · rw [hreslen]
      exact hkey.1
    · intro i hin
      rw [hresget _ hkey.1]
      rw [(lookUpEntry_getD tensorShape tileCounts lo hi
        (flatten_index ((List.range tensorShape.length).map (fun i =>
        (lo.getD i 0 + p.getD i 0) /
          (axisInfoAt tensorShape tileCounts lo hi i).tileLength -
        (axisInfoAt tensorShape tileCounts lo hi i).startTile))
      (tileCountsOf tensorShape tileCounts lo hi)) i hin).2]
      have hrelval : (unflatten_tile_index
          (flatten_index ((List.range tensorShape.length).map (fun i =>
        (lo.getD i 0 + p.getD i 0) /
          (axisInfoAt tensorShape tileCounts lo hi i).tileLength -
        (axisInfoAt tensorShape tileCounts lo hi i).startTile))
      (tileCountsOf tensorShape tileCounts lo hi)) (tileCountsOf tensorShape tileCounts lo hi)).getD i 0 =
          (lo.getD i 0 + p.getD i 0) / (axisInfoAt tensorShape tileCounts lo hi i).tileLength -
            (axisInfoAt tensorShape tileCounts lo hi i).startTile := by
        rw [hkey.2]
        exact getD_map_range _ _ _ _ hin
      rw [hrelval]
      obtain ⟨hf1, hf2, hf3, hf4, hf5, hf6, hf7, _⟩ := hfacts i hin
      have hcov := (axis_cover_info (axisInfoAt tensorShape tileCounts lo hi i)
        (lo.getD i 0) (hi.getD i 0) hf1 hf2 hf3 hf4 hf5 hf6 hf7
        (p.getD i 0) (hpbox i hin)).1
      have hform := (axis_entry_spec (axisInfoAt tensorShape tileCounts lo hi i)
        (lo.getD i 0) (hi.getD i 0)
        ((lo.getD i 0 + p.getD i 0) / (axisInfoAt tensorShape tileCounts lo hi i).tileLength -
          (axisInfoAt tensorShape tileCounts lo hi i).startTile)
        hf1 hf2 hf3 hf4 hf5 hf6 hf7 hcov.1).1
      rw [hform]
      exact ⟨hcov.2.1, hcov.2.2⟩
    · intro y hy
      obtain ⟨hylen, hybox⟩ := hy
      rw [hreslen] at hylen
      have hrelY : ∀ i, i < tensorShape.length →
          (unflatten_tile_index y (tileCountsOf tensorShape tileCounts lo hi)).getD i 0 =
          (lo.getD i 0 + p.getD i 0) / (axisInfoAt tensorShape tileCounts lo hi i).tileLength -
            (axisInfoAt tensorShape tileCounts lo hi i).startTile := by
        intro i hin
        have hb := hybox i hin
        rw [hresget y hylen] at hb
        rw [(lookUpEntry_getD tensorShape tileCounts lo hi y i hin).2] at hb
        have hrb : (unflatten_tile_index y (tileCountsOf tensorShape tileCounts lo hi)).getD i 0 <
            (axisInfoAt tensorShape tileCounts lo hi i).endTile - (axisInfoAt tensorShape tileCounts lo hi i).startTile := by
          have := unflatten_lt (tileCountsOf tensorShape tileCounts lo hi) y hylen i
            (by rw [hcl]; exact hin)
          rw [tileCountsOf_getD tensorShape tileCounts lo hi i hin] at this
          exact this
        obtain ⟨hf1, hf2, hf3, hf4, hf5, hf6, hf7, _⟩ := hfacts i hin
        have hform := (axis_entry_spec (axisInfoAt tensorShape tileCounts lo hi i)
          (lo.getD i 0) (hi.getD i 0)
          ((unflatten_tile_index y (tileCountsOf tensorShape tileCounts lo hi)).getD i 0)
          hf1 hf2 hf3 hf4 hf5 hf6 hf7 hrb).1
        rw [hform] at hb
        exact (axis_cover_info (axisInfoAt tensorShape tileCounts lo hi i)
          (lo.getD i 0) (hi.getD i 0) hf1 hf2 hf3 hf4 hf5 hf6 hf7
          (p.getD i 0) (hpbox i hin)).2
          ((unflatten_tile_index y (tileCountsOf tensorShape tileCounts lo hi)).getD i 0)
          hrb hb.1 hb.2
      have hlists : unflatten_tile_index y (tileCountsOf tensorShape tileCounts lo hi) =
          ((List.range tensorShape.length).map (fun i =>
        (lo.getD i 0 + p.getD i 0) /
          (axisInfoAt tensorShape tileCounts lo hi i).tileLength -
        (axisInfoAt tensorShape tileCounts lo hi i).startTile)) := by
        apply List.ext_getElem
        · rw [unflatten_length, hcl]
          simp
        · intro j h1 h2
          have hjn : j < tensorShape.length := by
            rw [unflatten_length, hcl] at h1
            exact h1
          rw [← List.getD_eq_getElem _ 0 h1, ← List.getD_eq_getElem _ 0 h2]
          rw [hrelY j hjn, getD_map_range _ _ _ _ hjn]
      calc y = flatten_index (unflatten_tile_index y
              (tileCountsOf tensorShape tileCounts lo hi)) (tileCountsOf tensorShape tileCounts lo hi) :=
            (flatten_unflatten (tileCountsOf tensorShape tileCounts lo hi) y hylen).symm
        _ = flatten_index ((List.range tensorShape.length).map (fun i =>
        (lo.getD i 0 + p.getD i 0) /
          (axisInfoAt tensorShape tileCounts lo hi i).tileLength -
        (axisInfoAt tensorShape tileCounts lo hi i).startTile))
              (tileCountsOf tensorShape tileCounts lo hi) := by rw [hlists]

theorem C1_look_up_tiles_exact_witness :
    (∀ i, i < ([4, 4] : List Nat).length →
      0 < ([2, 2] : List Nat).getD i 0 ∧
      ([2, 2] : List Nat).getD i 0 ∣ ([4, 4] : List Nat).getD i 0 ∧
      ([0, 2] : List Nat).getD i 0 < ([2, 4] : List Nat).getD i 0 ∧
      ([2, 4] : List Nat).getD i 0 ≤ ([4, 4] : List Nat).getD i 0) ∧
    (∀ p : List Nat, p.length = ([4, 4] : List Nat).length →
      (∀ i, i < ([4, 4] : List Nat).length →
        p.getD i 0 < ([2, 4] : List Nat).getD i 0 -
          ([0, 2] : List Nat).getD i 0) →
      ∃! k, k < (lookUpDstTileFromSrc [4, 4] [2, 2] [0, 2] [2, 4]).length ∧
        ∀ i, i < ([4, 4] : List Nat).length →
          (((lookUpDstTileFromSrc [4, 4] [2, 2] [0, 2] [2, 4]).getD k
              ([], [])).2.getD i ⟨0, 0⟩).start ≤ p.getD i 0 ∧
          p.getD i 0 < (((lookUpDstTileFromSrc [4, 4] [2, 2] [0, 2]
              [2, 4]).getD k ([], [])).2.getD i ⟨0, 0⟩).stop) :=
  ⟨by decide, (C1_look_up_tiles_exact [4, 4] [2, 2] [0, 2] [2, 4]
    (by decide) (by decide) (by decide) (by decide)).2⟩

end Alpa
